import Mathlib

/-!
# netpod-jlabath-bigquery: row encoding and paginated iteration

A shallow embedding of `main.go`: the column encoder `Col.MarshalJSON`, the row
adapter `Row.Load` / `Row.MarshalJSON`, and the two handlers `query` and
`queryToken`, together with the parts of the libraries they call
(`encoding/json`, `math/big`, `cloud.google.com/go/civil`,
`google.golang.org/api/iterator`, `cloud.google.com/go/bigquery`) that decide
what the handlers return.

Conventions.
* `json.Marshal` returns bytes; the model returns the JSON document those bytes
  denote (`Json`), so that "a JSON string", "JSON null" and "a JSON array of n
  elements" are statements about constructors.
* A Go `(result, error)` pair is an `Except GoError _`.
* A Go slice is a `Slice`: `none` is the nil slice, `some xs` a non-nil one;
  `encoding/json` writes the first as `null` and the second as an array.
* A loop that the source does not bound takes a fuel argument and returns
  `none` when the fuel runs out.
-/

namespace BigQueryPod

/-! ## JSON documents and Go errors -/

/-- A JSON document. -/
inductive Json where
  | null
  | bool (b : Bool)
  | num (q : ℚ)
  | str (s : String)
  | arr (elems : List Json)
  | obj (fields : List (String × Json))

/-- A Go error value, as far as the program can tell them apart. -/
inductive GoError where
  /-- An error made by `fmt.Errorf` or `errors.New`, with its message. -/
  | errorf (msg : String)
  /-- A `*json.MarshalerError`: a `MarshalJSON` method of type `typ` failed with `err`. -/
  | marshaler (typ : String) (err : GoError)
  /-- A `*json.UnsupportedValueError` (a NaN or an infinity). -/
  | unsupportedValue (str : String)
  /-- The sentinel `iterator.Done`. -/
  | done

/-- The `Error()` method. -/
def GoError.Error : GoError → String
  | .errorf msg => msg
  | .marshaler typ err => "json: error calling MarshalJSON for type " ++ typ ++ ": " ++ err.Error
  | .unsupportedValue str => "json: unsupported value: " ++ str
  | .done => "no more items in iterator"

/-- A Go slice: `none` is the nil slice. -/
abbrev Slice (α : Type) := Option (List α)

/-- The elements of a slice; the nil slice has none. -/
def Slice.elems {α : Type} : Slice α → List α
  | none => []
  | some xs => xs

/-- Go's `append(s, x)`: the result is never nil. -/
def Slice.append {α : Type} (s : Slice α) (x : α) : Slice α :=
  some (Slice.elems s ++ [x])

/-! ## Runtime values (`bigquery.Value`) -/

/-- A `float64`: a finite value, or one of the three that JSON cannot carry. -/
inductive Float64 where
  | finite (q : ℚ)
  | nan
  | posInf
  | negInf

/-- A `time.Time`, kept as what its `MarshalJSON` method returns: the RFC 3339
text of the instant, or the error message for an instant that has none (a year
outside 0..9999). -/
structure Time where
  marshalJSON : Except String String

/-- The type `civil.Date`. -/
structure CivilDate where
  Year : Int
  Month : Int
  Day : Int

/-- The type `civil.Time`. -/
structure CivilTime where
  Hour : Int
  Minute : Int
  Second : Int
  Nanosecond : Int

/-- The type `civil.DateTime`. -/
structure CivilDateTime where
  Date : CivilDate
  Time : CivilTime

/-- The dynamic value of a `bigquery.Value` (an `interface{}`), over the Go
types the BigQuery client documents for it. `rat` is a non-nil `*big.Rat`,
which always holds a fraction in lowest terms with a positive denominator;
`list` is a non-nil `[]bigquery.Value` and `nilList` the nil one. -/
inductive Value where
  | nil
  | int64 (i : Int)
  | float64 (f : Float64)
  | bool (b : Bool)
  | str (s : String)
  | bytes (b : List (Fin 256))
  | rat (q : ℚ)
  | timestamp (t : Time)
  | civilDate (d : CivilDate)
  | civilTime (t : CivilTime)
  | civilDateTime (dt : CivilDateTime)
  | list (vs : List Value)
  | nilList

/-! ## Text forms -/

/-- Left-pad `s` with zeros to `width` characters. -/
def padZero (width : Nat) (s : String) : String :=
  String.mk (List.replicate (width - s.length) '0') ++ s

/-- The `fmt` verb `%0<width>d`: the sign counts towards the width. -/
def fmtInt (width : Nat) (i : Int) : String :=
  if i < 0 then "-" ++ padZero (width - 1) (toString i.natAbs)
  else padZero width (toString i.natAbs)

/-- `civil.Date.String`: `%04d-%02d-%02d`. -/
def CivilDate.String (d : CivilDate) : String :=
  fmtInt 4 d.Year ++ "-" ++ fmtInt 2 d.Month ++ "-" ++ fmtInt 2 d.Day

/-- `civil.Time.String`: `%02d:%02d:%02d`, then `.%09d` when the nanoseconds
are not zero. -/
def CivilTime.String (t : CivilTime) : String :=
  let s := fmtInt 2 t.Hour ++ ":" ++ fmtInt 2 t.Minute ++ ":" ++ fmtInt 2 t.Second
  if t.Nanosecond = 0 then s else s ++ "." ++ fmtInt 9 t.Nanosecond

/-- `civil.DateTime.String`. -/
def CivilDateTime.String (dt : CivilDateTime) : String :=
  dt.Date.String ++ "T" ++ dt.Time.String

/-- `(*big.Rat).String`: the form `a/b`, also when `b` is 1. -/
def ratString (q : ℚ) : String :=
  toString q.num ++ "/" ++ toString q.den

/-- `(*big.Rat).MarshalText`: the integer alone when the value is one, `a/b` otherwise. -/
def ratMarshalText (q : ℚ) : String :=
  if q.den = 1 then toString q.num else ratString q

/-- The 64 digits of the standard base64 alphabet. -/
def base64Alphabet : List Char :=
  "ABCDEFGHIJKLMNOPQRSTUVWXYZabcdefghijklmnopqrstuvwxyz0123456789+/".toList

/-- The digit for a 6-bit group. -/
def base64Digit (n : Nat) : Char := base64Alphabet.getD n '='

/-- Standard base64 with padding, as `encoding/json` writes a `[]byte`. -/
def base64 : List (Fin 256) → List Char
  | [] => []
  | [a] => [base64Digit (a.val / 4), base64Digit (a.val % 4 * 16), '=', '=']
  | [a, b] =>
    [base64Digit (a.val / 4), base64Digit (a.val % 4 * 16 + b.val / 16),
     base64Digit (b.val % 16 * 4), '=']
  | a :: b :: c :: rest =>
    [base64Digit (a.val / 4), base64Digit (a.val % 4 * 16 + b.val / 16),
     base64Digit (b.val % 16 * 4 + c.val / 64), base64Digit (c.val % 64)] ++ base64 rest

/-! ## `json.Marshal` -/

/-- The function `json.Marshal` on a Go `string`. -/
def jsonMarshalString (s : String) : Except GoError Json := .ok (.str s)

mutual
/-- The function `json.Marshal` on a `bigquery.Value`: it goes by the dynamic type. -/
def jsonMarshal : Value → Except GoError Json
  | .nil => .ok .null
  | .int64 i => .ok (.num i)
  | .float64 (.finite q) => .ok (.num q)
  | .float64 .nan => .error (.unsupportedValue "NaN")
  | .float64 .posInf => .error (.unsupportedValue "+Inf")
  | .float64 .negInf => .error (.unsupportedValue "-Inf")
  | .bool b => .ok (.bool b)
  | .str s => jsonMarshalString s
  | .bytes b => .ok (.str (String.mk (base64 b)))
  | .rat q => .ok (.str (ratMarshalText q))
  | .timestamp t =>
    match t.marshalJSON with
    | .ok text => .ok (.str text)
    | .error msg => .error (.marshaler "time.Time" (.errorf msg))
  | .civilDate d => .ok (.str d.String)
  | .civilTime t => .ok (.str t.String)
  | .civilDateTime dt => .ok (.str dt.String)
  | .list vs =>
    match jsonMarshalList vs with
    | .ok js => .ok (.arr js)
    | .error e => .error e
  | .nilList => .ok .null
/-- The elements of a `[]bigquery.Value`, in order, stopping at the first that fails. -/
def jsonMarshalList : List Value → Except GoError (List Json)
  | [] => .ok []
  | v :: vs =>
    match jsonMarshal v with
    | .error e => .error e
    | .ok j =>
      match jsonMarshalList vs with
      | .error e => .error e
      | .ok js => .ok (j :: js)
end

/-- The array encoder of `encoding/json` on the elements of a slice whose
element type `typ` has a `MarshalJSON` method on its pointer: each element's
method is called in order, and the first failure ends the encoding with a
`MarshalerError` around it. -/
def marshalElems {α : Type} (typ : String) (f : α → Except GoError Json) :
    List α → Except GoError (List Json)
  | [] => .ok []
  | x :: xs =>
    match f x with
    | .error e => .error (.marshaler typ e)
    | .ok j =>
      match marshalElems typ f xs with
      | .error e => .error e
      | .ok js => .ok (j :: js)

/-- The function `json.Marshal` on a slice of such elements: `null` for the nil slice. -/
def marshalSlice {α : Type} (typ : String) (f : α → Except GoError Json) :
    Slice α → Except GoError Json
  | none => .ok .null
  | some xs =>
    match marshalElems typ f xs with
    | .error e => .error e
    | .ok js => .ok (.arr js)

/-! ## Columns and rows -/

/-- The fields of `bigquery.FieldSchema` that the program reads. `Typ` (the Go field `Type`) is a
`bigquery.FieldType`, a string type. -/
structure FieldSchema where
  Name : String
  Typ : String

/-- The type `bigquery.Schema`. -/
abbrev Schema := List FieldSchema

/-! The values of `bigquery.FieldType` that the program or its inputs name, as
the BigQuery client declares them. -/

def StringFieldType : String := "STRING"
def BytesFieldType : String := "BYTES"
def IntegerFieldType : String := "INTEGER"
def FloatFieldType : String := "FLOAT"
def BooleanFieldType : String := "BOOLEAN"
def TimestampFieldType : String := "TIMESTAMP"
def RecordFieldType : String := "RECORD"
def DateFieldType : String := "DATE"
def TimeFieldType : String := "TIME"
def DateTimeFieldType : String := "DATETIME"
def NumericFieldType : String := "NUMERIC"
def BigNumericFieldType : String := "BIGNUMERIC"

/-- One value of a row with its schema entry. -/
structure Col where
  Schema : FieldSchema
  Val : Value

/-- The error of a value that does not have the Go type its column asks for. -/
def convertError (name : String) : GoError :=
  .errorf ("Failed to convert field " ++ name ++ " to json")

/-- The error of a column type outside the switch. -/
def unsureError (name type : String) : GoError :=
  .errorf ("Unsure how to convert field " ++ name ++ " and type " ++ type)

/-- The method `(*Col).MarshalJSON`. -/
def Col.MarshalJSON (c : Col) : Except GoError Json :=
  if c.Schema.Typ = IntegerFieldType ∨ c.Schema.Typ = StringFieldType ∨
      c.Schema.Typ = BooleanFieldType ∨ c.Schema.Typ = FloatFieldType then
    jsonMarshal c.Val
  else if c.Schema.Typ = NumericFieldType ∨ c.Schema.Typ = BigNumericFieldType then
    match c.Val with
    | .nil => jsonMarshal c.Val
    | .rat num => jsonMarshalString (ratString num)
    | _ => .error (convertError c.Schema.Name)
  else if c.Schema.Typ = TimestampFieldType then
    jsonMarshal c.Val
  else if c.Schema.Typ = TimeFieldType then
    match c.Val with
    | .civilTime v => jsonMarshalString v.String
    | _ => .error (convertError c.Schema.Name)
  else if c.Schema.Typ = DateFieldType then
    match c.Val with
    | .civilDate v => jsonMarshalString v.String
    | _ => .error (convertError c.Schema.Name)
  else if c.Schema.Typ = DateTimeFieldType then
    match c.Val with
    | .civilDateTime v => jsonMarshalString v.String
    | _ => .error (convertError c.Schema.Name)
  else
    .error (unsureError c.Schema.Name c.Schema.Typ)

/-- A generic BigQuery row. -/
structure Row where
  columns : Slice Col

/-- The loop of `Row.Load` from index `idx` on: `none` is the run-time panic of
`s[idx]` past the end of the schema. -/
def Row.loadFrom (s : Schema) : Nat → List Value → Slice Col → Option (Slice Col)
  | _, [], columns => some columns
  | idx, val :: rest, columns =>
    match s[idx]? with
    | none => none
    | some f => Row.loadFrom s (idx + 1) rest (Slice.append columns ⟨f, val⟩)

/-- The method `(*Row).Load`: the row it leaves in the receiver and the error it
returns; `none` when it panics. -/
def Row.Load (_r : Row) (v : List Value) (s : Schema) : Option (Row × Option GoError) :=
  match Row.loadFrom s 0 v (some []) with
  | none => none
  | some columns => some (⟨columns⟩, none)

/-- The method `(*Row).MarshalJSON`. -/
def Row.MarshalJSON (r : Row) : Except GoError Json :=
  marshalSlice "main.Col" Col.MarshalJSON r.columns

/-! ## The row iterator (`bigquery.RowIterator` over `iterator.PageInfo`) -/

/-- What `client.Query(sql).Read(ctx)` hands to the iterator: the schema of the
result and the page fetcher. `fetch pageSize pageToken` is one call of the
service: the rows of the page that `pageToken` designates (the first page for
the empty token) and the token of the page after it, empty when there is none. -/
structure DataSource where
  Schema : Schema
  fetch : Int → String → Except GoError (List (List Value) × String)

/-- The method chain `client.Query(sql).Read(ctx)` of a `*bigquery.Client`. -/
abbrev Client := String → Except GoError DataSource

/-- A `*bigquery.RowIterator` with the fields of its `iterator.PageInfo`:
`Token` and `MaxSize` are the two exported ones, `err` the latched error,
`atEnd` whether the last fetch returned the empty token, `rows` the buffer.
`pulls` is a ghost field: the number of calls of `Next` so far. -/
structure RowIterator where
  src : DataSource
  Token : String
  MaxSize : Int
  err : Option GoError
  atEnd : Bool
  rows : List (List Value)
  pulls : Nat

/-- The iterator that `Read` returns: nothing buffered, no token. -/
def newRowIterator (src : DataSource) : RowIterator :=
  { src := src, Token := "", MaxSize := 0, err := none, atEnd := false, rows := [], pulls := 0 }

/-- The method `PageInfo.fill`: one call of the service with the token of the
iterator. A failed call empties the buffer and leaves the token as it was; a
successful one appends the rows of the page to the buffer and sets the token to
the one the service returned. -/
def RowIterator.fill (it : RowIterator) (size : Int) : RowIterator × Option GoError :=
  match it.src.fetch size it.Token with
  | .error err => ({ it with rows := [] }, some err)
  | .ok (rows, pageToken) => ({ it with rows := it.rows ++ rows, Token := pageToken }, none)

/-- The loop of `PageInfo.next` and the check after it: fill until the buffer
has rows or the end is reached (a fill that leaves the empty token reaches it);
an error of a fill is latched and returned, and so is `Done` when the buffer is
still empty after the loop. -/
def RowIterator.nextLoop : Nat → RowIterator → Option (RowIterator × Option GoError)
  | 0, it =>
    if it.rows.length = 0 ∧ it.atEnd = false then none
    else if it.rows.length = 0 then some ({ it with err := some .done }, some .done)
    else some (it, none)
  | fuel + 1, it =>
    if it.rows.length = 0 ∧ it.atEnd = false then
      match it.fill it.MaxSize with
      | (it, some err) => some ({ it with err := some err }, some err)
      | (it, none) =>
        RowIterator.nextLoop fuel (if it.Token = "" then { it with atEnd := true } else it)
    else if it.rows.length = 0 then some ({ it with err := some .done }, some .done)
    else some (it, none)

/-- The method `PageInfo.next`: once an error (also `Done`) is set it is returned for good. -/
def RowIterator.next (fuel : Nat) (it : RowIterator) : Option (RowIterator × Option GoError) :=
  match it.err with
  | some err => some (it, some err)
  | none => RowIterator.nextLoop fuel it

/-- What one call `it.Next(&row)` does to a fresh `row`. -/
inductive Pulled where
  /-- The call returned nil and loaded `row`. -/
  | row (row : Row)
  /-- The call returned an error. -/
  | err (err : GoError)
  /-- The call panicked. -/
  | panic

/-- The second half of `(*RowIterator).Next`, after `nextFunc` returned nil:
the first buffered row leaves the buffer and is loaded into the destination. -/
def RowIterator.loadFirst (it : RowIterator) : RowIterator × Pulled :=
  match it.rows with
  | [] => (it, .panic)
  | row :: rest =>
    match Row.Load ⟨none⟩ row it.src.Schema with
    | none => ({ it with rows := rest }, .panic)
    | some (r, none) => ({ it with rows := rest }, .row r)
    | some (_, some err) => ({ it with rows := rest }, .err err)

/-- The method `(*RowIterator).Next` with a `*Row` destination. -/
def RowIterator.Next (fuel : Nat) (it : RowIterator) : Option (RowIterator × Pulled) :=
  match RowIterator.next fuel { it with pulls := it.pulls + 1 } with
  | none => none
  | some (it, some err) => some (it, .err err)
  | some (it, none) => some it.loadFirst

/-! ## The handlers -/

/-- How a call of a handler ends. -/
inductive Outcome (α : Type) where
  /-- The handler returned a payload and a nil error. -/
  | returned (payload : α)
  /-- The handler returned no payload and an error. -/
  | failed (err : GoError)
  /-- The handler called `log.Fatalf`: the message is logged and the process
  exits with status 1; the handler does not return. -/
  | fatal (msg : String)
  /-- The handler panicked. -/
  | panicked

/-- How a pull loop ends. -/
inductive Pulling where
  /-- The loop was left with the iterator and the rows collected. -/
  | finished (it : RowIterator) (results : Slice Row)
  /-- The loop called `log.Fatalf`. -/
  | fatal (msg : String)
  /-- A pull panicked. -/
  | panicked

/-- The loop of `query`: pull until `iterator.Done`. The first argument is the
fuel of each pull, the second the fuel of the loop, which the source does not
bound. -/
def query.loop (fuel : Nat) : Nat → RowIterator → Slice Row → Option Pulling
  | 0, _, _ => none
  | n + 1, it, results =>
    match it.Next fuel with
    | none => none
    | some (it, .err .done) => some (.finished it results)
    | some (_, .err err) => some (.fatal ("Error iterating through results: " ++ err.Error))
    | some (_, .panic) => some .panicked
    | some (it, .row row) => query.loop fuel n it (Slice.append results row)

/-- The handler `query`. `decoded` is what `pod.DecodeArgs(args, &sql)` gives;
`fuel` bounds the fetches of each pull and the number of pulls. -/
def query (fuel : Nat) (client : Client) (decoded : Except GoError String) :
    Option (Outcome Json) :=
  match decoded with
  | .error err => some (.failed err)
  | .ok sql =>
    match client sql with
    | .error err => some (.fatal ("Failed to execute query: " ++ err.Error))
    | .ok src =>
      match query.loop fuel fuel (newRowIterator src) none with
      | none => none
      | some (.fatal msg) => some (.fatal msg)
      | some .panicked => some .panicked
      | some (.finished _ results) =>
        match marshalSlice "main.Row" Row.MarshalJSON results with
        | .error err => some (.failed err)
        | .ok payload => some (.returned payload)

/-- The response of `queryToken`. -/
structure QueryTokenResp where
  Rows : Slice Row
  Token : String

/-- The function `json.Marshal` on a `QueryTokenResp`: the fields `rows` and `token`. -/
def QueryTokenResp.marshal (resp : QueryTokenResp) : Except GoError Json :=
  match marshalSlice "main.Row" Row.MarshalJSON resp.Rows with
  | .error err => .error err
  | .ok rows => .ok (.obj [("rows", rows), ("token", .str resp.Token)])

/-- The two assignments of `queryToken` before its loop. -/
def queryToken.configure (it : RowIterator) (token : String) (pageSize : Int) : RowIterator :=
  let it := if token ≠ "" then { it with Token := token } else it
  { it with MaxSize := pageSize }

/-- The loop of `queryToken`, by the number of iterations left (`pageSize - i`). -/
def queryToken.loop (fuel : Nat) : Nat → RowIterator → Slice Row → Option Pulling
  | 0, it, results => some (.finished it results)
  | n + 1, it, results =>
    match it.Next fuel with
    | none => none
    | some (it, .err .done) => some (.finished it results)
    | some (_, .err err) => some (.fatal ("Error iterating through results: " ++ err.Error))
    | some (_, .panic) => some .panicked
    | some (it, .row row) => queryToken.loop fuel n it (Slice.append results row)

/-- The handler `queryToken` up to the response it builds. `decoded` is what
`pod.DecodeArgs(args, &sql, &token, &pageSize)` gives. -/
def queryToken.page (fuel : Nat) (client : Client) (decoded : Except GoError (String × String × Int)) :
    Option (Outcome QueryTokenResp) :=
  match decoded with
  | .error err => some (.failed err)
  | .ok (sql, token, pageSize) =>
    match client sql with
    | .error err => some (.fatal ("Failed to execute query: " ++ err.Error))
    | .ok src =>
      match queryToken.loop fuel pageSize.toNat
          (queryToken.configure (newRowIterator src) token pageSize) none with
      | none => none
      | some (.fatal msg) => some (.fatal msg)
      | some .panicked => some .panicked
      | some (.finished it results) => some (.returned { Token := it.Token, Rows := results })

/-- The handler `queryToken`. -/
def queryToken (fuel : Nat) (client : Client) (decoded : Except GoError (String × String × Int)) :
    Option (Outcome Json) :=
  match queryToken.page fuel client decoded with
  | none => none
  | some (.failed err) => some (.failed err)
  | some (.fatal msg) => some (.fatal msg)
  | some .panicked => some .panicked
  | some (.returned resp) =>
    match resp.marshal with
    | .error err => some (.failed err)
    | .ok payload => some (.returned payload)

/-! ## The serving process, the paginating caller and a batching data source -/

/-- What a process answers to calls served one after the other. A handler that
calls `log.Fatalf` ends the process: that call and the ones after it get no
answer. So does a handler that does not finish. `recovers` says whether the
transport recovers from a panic of a handler; if not, a panic ends the process
too. -/
def serveAll {γ α : Type} (recovers : Bool) (handler : γ → Option (Outcome α)) :
    List γ → List (Outcome α)
  | [] => []
  | call :: calls =>
    match handler call with
    | none => []
    | some (.fatal _) => []
    | some .panicked => if recovers then .panicked :: serveAll recovers handler calls else []
    | some (.returned payload) => .returned payload :: serveAll recovers handler calls
    | some (.failed err) => .failed err :: serveAll recovers handler calls

/-- The caller that pages through a result: call with a token, then with the token
of each response, until a response has the empty token; at most `calls` calls.
The result is the responses in order. -/
def paginate (call : String → Option (Outcome QueryTokenResp)) :
    Nat → String → Option (List QueryTokenResp)
  | 0, _ => none
  | calls + 1, token =>
    match call token with
    | some (.returned resp) =>
      if resp.Token = "" then some [resp]
      else
        match paginate call calls resp.Token with
        | none => none
        | some resps => some (resp :: resps)
    | _ => none

/-- The token that designates the rows from offset `off` on: `off` characters,
so that the empty token is the start. -/
def offsetToken (off : Nat) : String := String.mk (List.replicate off 'r')

/-- A data source over a fixed result set `rows` that serves it in batches:
asked for the page at a token with page-size hint `pageSize`, it returns the
next `batch off pageSize` rows from the offset `off` the token designates, and
the token of the batch after them, empty when no row is left. -/
def pagedSource (schema : Schema) (rows : List (List Value)) (batch : Nat → Int → Nat) :
    DataSource where
  Schema := schema
  fetch := fun pageSize pageToken =>
    .ok ((rows.drop pageToken.length).take (batch pageToken.length pageSize),
      if pageToken.length + batch pageToken.length pageSize < rows.length then
        offsetToken (pageToken.length + batch pageToken.length pageSize)
      else "")

/-- The rows that `Row.Load` makes of the raw rows of a result set. -/
def resultSet (schema : Schema) (rows : List (List Value)) : List Row :=
  rows.filterMap fun v =>
    match Row.Load ⟨none⟩ v schema with
    | some (row, _) => some row
    | none => none

/-- Pulling from `it` returns the rows `rows` in order and then the error `err`
(`iterator.Done` when the rows are simply exhausted), leaving the iterator
`last`. -/
inductive Pulls (fuel : Nat) : RowIterator → List Row → RowIterator → GoError → Prop where
  | stop {it last : RowIterator} {err : GoError} :
    it.Next fuel = some (last, .err err) → Pulls fuel it [] last err
  | row {it it2 last : RowIterator} {row : Row} {rows : List Row} {err : GoError} :
    it.Next fuel = some (it2, .row row) → Pulls fuel it2 rows last err →
    Pulls fuel it (row :: rows) last err

/-- The slice after appending the rows `rows` one by one. -/
def Slice.appendAll {α : Type} (s : Slice α) (rows : List α) : Slice α :=
  rows.foldl Slice.append s

/-- The row that `Row.Load` makes of the values `v` under the schema `s`. -/
def Row.paired (s : Schema) (v : List Value) : Row :=
  ⟨some (List.zipWith Col.mk s v)⟩

/-- A decimal text in the words of the specification: an optional sign, digits,
and optionally a point followed by digits. -/
def isDecimalText (s : String) : Bool :=
  let unsigned := match s.toList with
    | '-' :: rest => rest
    | cs => cs
  let whole := unsigned.takeWhile Char.isDigit
  match unsigned.dropWhile Char.isDigit with
  | [] => !whole.isEmpty
  | '.' :: fraction => !whole.isEmpty && !fraction.isEmpty && fraction.all Char.isDigit
  | _ => false

/-- The value of a decimal digit. -/
def digitValue (c : Char) : Nat := c.toNat - '0'.toNat

/-- The number that a text of decimal digits writes. -/
def decimalValue (cs : List Char) : Nat :=
  cs.foldl (fun acc c => 10 * acc + digitValue c) 0

/-- Reading a text `a/b` back: the integer before the stroke and the natural
number after it. -/
def readFraction (s : String) : Int × Nat :=
  let numerator := s.toList.takeWhile (· ≠ '/')
  let denominator := (s.toList.dropWhile (· ≠ '/')).drop 1
  (match numerator with
    | '-' :: digits => -(decimalValue digits : Int)
    | digits => (decimalValue digits : Int),
   decimalValue denominator)

/-! ## Inputs of the examples -/

/-- The rational 3/2. -/
def threeHalves : ℚ := ⟨3, 2, by decide, by decide⟩

/-- A rational with thirty significant digits, more than a `float64` holds. -/
def manyDigits : ℚ := ⟨123456789012345678901234567891, 1000000000, by decide, by decide⟩

/-- The schema of one Integer column. -/
def idSchema : Schema := [⟨"id", IntegerFieldType⟩]

/-- Batches of exactly the page-size hint. -/
def exactBatch : Nat → Int → Nat := fun _ pageSize => pageSize.toNat

/-- An empty result set under the schema `schema`. -/
def emptySource (schema : Schema) : DataSource :=
  pagedSource schema [] exactBatch

/-- A data source that serves one row and fails on the fetch after it. -/
def brokenSource : DataSource where
  Schema := idSchema
  fetch := fun _ pageToken =>
    if pageToken = "" then .ok ([[.int64 1]], "r") else .error (.errorf "connection reset")

/-- A client that rejects the query `bad`, serves `broken` from `brokenSource`
and finds no rows for any other query. -/
def flakyClient : Client := fun sql =>
  if sql = "bad" then .error (.errorf "syntax error")
  else if sql = "broken" then .ok brokenSource
  else .ok (emptySource idSchema)

/-- A result set of five rows. -/
def fiveRows : List (List Value) :=
  [[.int64 1], [.int64 2], [.int64 3], [.int64 4], [.int64 5]]

/-- A client whose every query has the five rows, served in batches of the hint. -/
def fiveRowClient : Client := fun _ => .ok (pagedSource idSchema fiveRows exactBatch)

/-- Batches within a hint of 2 that do not line up with it: one row first, two after. -/
def raggedBatch : Nat → Int → Nat := fun off _ => if off = 0 then 1 else 2

/-- A client whose every query has the first three of the five rows, served in
the ragged batches. -/
def raggedClient : Client := fun _ => .ok (pagedSource idSchema (fiveRows.take 3) raggedBatch)

/-- The schema of one Date column. -/
def birthSchema : Schema := [⟨"born", DateFieldType⟩]

/-- A client whose every query has one row, which holds NULL in its Date column. -/
def nullDateClient : Client := fun _ => .ok (pagedSource birthSchema [[.nil]] exactBatch)

/-- A schema of an Integer and a Numeric column. -/
def priceSchema : Schema := [⟨"id", IntegerFieldType⟩, ⟨"price", NumericFieldType⟩]

/-- The values of one row under `priceSchema`. -/
def priceValues : List Value := [.int64 7, .rat threeHalves]

/-! ## Theorems -/

/-! ### The column encoder -/

theorem convertError_names (name : String) :
    name.data <:+: (convertError name).Error.data :=
  ⟨"Failed to convert field ".data, " to json".data, by
    simp [convertError, GoError.Error, String.data_append]⟩

theorem unsureError_names (name type : String) :
    name.data <:+: (unsureError name type).Error.data ∧
      type.data <:+: (unsureError name type).Error.data :=
  ⟨⟨"Unsure how to convert field ".data, (" and type " ++ type).data, by
      simp [unsureError, GoError.Error, String.data_append]⟩,
    ⟨("Unsure how to convert field " ++ name ++ " and type ").data, [], by
      simp [unsureError, GoError.Error, String.data_append]⟩⟩

/-- C8. A column whose declared type is none of the ten types of the switch
fails for every value, present or absent: `Col.MarshalJSON` returns no bytes
and the "unsure" error, and the message of that error contains the name of the
column and the declared type. -/
theorem unsupported_type_fails (name type : String) (v : Value)
    (hInteger : type ≠ IntegerFieldType) (hString : type ≠ StringFieldType)
    (hBoolean : type ≠ BooleanFieldType) (hFloat : type ≠ FloatFieldType)
    (hNumeric : type ≠ NumericFieldType) (hBigNumeric : type ≠ BigNumericFieldType)
    (hTimestamp : type ≠ TimestampFieldType) (hTime : type ≠ TimeFieldType)
    (hDate : type ≠ DateFieldType) (hDateTime : type ≠ DateTimeFieldType) :
    Col.MarshalJSON ⟨⟨name, type⟩, v⟩ = .error (unsureError name type) ∧
      name.data <:+: (unsureError name type).Error.data ∧
      type.data <:+: (unsureError name type).Error.data := by
  refine ⟨?_, unsureError_names name type⟩
  simp [Col.MarshalJSON, *]

/-- C8 at a BYTES column holding two bytes. -/
theorem unsupported_type_fails_witness :
    Col.MarshalJSON ⟨⟨"payload", "BYTES"⟩, .bytes [1, 2]⟩ =
        .error (unsureError "payload" "BYTES") ∧
      "payload".data <:+: (unsureError "payload" "BYTES").Error.data ∧
      "BYTES".data <:+: (unsureError "payload" "BYTES").Error.data :=
  unsupported_type_fails "payload" "BYTES" (.bytes [1, 2]) (by decide) (by decide) (by decide)
    (by decide) (by decide) (by decide) (by decide) (by decide) (by decide) (by decide)

/-- C9. A Numeric or BigNumeric column with a present value that is not a
`*big.Rat`, and a Time, Date or DateTime column with a value that is not the
`civil` type of that column (the absent value included), fail: `Col.MarshalJSON`
returns no bytes and the conversion error, whose message contains the name of
the column. -/
theorem mismatch_fails (name type : String) (v : Value)
    (h : ((type = NumericFieldType ∨ type = BigNumericFieldType) ∧ v ≠ .nil ∧ ∀ q, v ≠ .rat q) ∨
      (type = TimeFieldType ∧ ∀ t, v ≠ .civilTime t) ∨
      (type = DateFieldType ∧ ∀ d, v ≠ .civilDate d) ∨
      (type = DateTimeFieldType ∧ ∀ dt, v ≠ .civilDateTime dt)) :
    Col.MarshalJSON ⟨⟨name, type⟩, v⟩ = .error (convertError name) ∧
      name.data <:+: (convertError name).Error.data := by
  refine ⟨?_, convertError_names name⟩
  rcases h with ⟨h | h, hnil, hrat⟩ | ⟨h, hv⟩ | ⟨h, hv⟩ | ⟨h, hv⟩ <;> subst h <;>
    cases v <;> simp_all [Col.MarshalJSON, IntegerFieldType, StringFieldType, BooleanFieldType,
      FloatFieldType, NumericFieldType, BigNumericFieldType, TimestampFieldType, TimeFieldType,
      DateFieldType, DateTimeFieldType]

/-- C9 at a Numeric column that holds a string. -/
theorem mismatch_fails_witness :
    Col.MarshalJSON ⟨⟨"amount", NumericFieldType⟩, .str "12.5"⟩ =
        .error (convertError "amount") ∧
      "amount".data <:+: (convertError "amount").Error.data :=
  mismatch_fails "amount" NumericFieldType (.str "12.5")
    (Or.inl ⟨Or.inl rfl, fun h => Value.noConfusion h, fun _ h => Value.noConfusion h⟩)

/-- C4, the claim refuted: an Integer column with an absent value encodes to
JSON null and returns no error. -/
theorem absent_integer_is_null :
    Col.MarshalJSON ⟨⟨"n", IntegerFieldType⟩, .nil⟩ = .ok .null ∧
      ¬ ∃ err, Col.MarshalJSON ⟨⟨"n", IntegerFieldType⟩, .nil⟩ = .error err := by
  have h : Col.MarshalJSON ⟨⟨"n", IntegerFieldType⟩, .nil⟩ = .ok .null := rfl
  refine ⟨h, ?_⟩
  rintro ⟨err, he⟩
  rw [h] at he
  cases he

/-- C4 as amended. For a column whose value is absent: under Numeric,
BigNumeric, Integer, Float, Boolean, String and Timestamp `Col.MarshalJSON`
succeeds with JSON null; under Date, Time and DateTime it fails with the
conversion error, whose message contains the name of the column. -/
theorem absent_value (name type : String) :
    (type ∈ [NumericFieldType, BigNumericFieldType, IntegerFieldType, FloatFieldType,
        BooleanFieldType, StringFieldType, TimestampFieldType] →
      Col.MarshalJSON ⟨⟨name, type⟩, .nil⟩ = .ok .null) ∧
    (type ∈ [DateFieldType, TimeFieldType, DateTimeFieldType] →
      Col.MarshalJSON ⟨⟨name, type⟩, .nil⟩ = .error (convertError name) ∧
        name.data <:+: (convertError name).Error.data) := by
  constructor
  · intro h
    simp only [List.mem_cons, List.mem_singleton, List.not_mem_nil, or_false] at h
    rcases h with h | h | h | h | h | h | h <;> subst h <;>
      simp [Col.MarshalJSON, jsonMarshal, IntegerFieldType, StringFieldType, BooleanFieldType,
        FloatFieldType, NumericFieldType, BigNumericFieldType, TimestampFieldType, TimeFieldType,
        DateFieldType, DateTimeFieldType]
  · intro h
    refine ⟨?_, convertError_names name⟩
    simp only [List.mem_cons, List.mem_singleton, List.not_mem_nil, or_false] at h
    rcases h with h | h | h <;> subst h <;>
      simp [Col.MarshalJSON, jsonMarshal, IntegerFieldType, StringFieldType, BooleanFieldType,
        FloatFieldType, NumericFieldType, BigNumericFieldType, TimestampFieldType, TimeFieldType,
        DateFieldType, DateTimeFieldType]

/-- C4 as amended, at an absent Timestamp and an absent Date. -/
theorem absent_value_witness :
    Col.MarshalJSON ⟨⟨"seen", TimestampFieldType⟩, .nil⟩ = .ok .null ∧
      Col.MarshalJSON ⟨⟨"born", DateFieldType⟩, .nil⟩ = .error (convertError "born") ∧
      "born".data <:+: (convertError "born").Error.data :=
  ⟨(absent_value "seen" TimestampFieldType).1 (by decide),
    (absent_value "born" DateFieldType).2 (by decide)⟩

/-! ### The text of a rational -/

theorem digitValue_digitChar : ∀ k, k < 10 → digitValue (Nat.digitChar k) = k := by
  decide

theorem isDigit_digitChar : ∀ k, k < 10 → (Nat.digitChar k).isDigit = true := by
  decide

theorem toDigitsCore_append (fuel : Nat) :
    ∀ (n : Nat) (ds : List Char),
      Nat.toDigitsCore 10 fuel n ds = Nat.toDigitsCore 10 fuel n [] ++ ds := by
  induction fuel with
  | zero => intro n ds; simp [Nat.toDigitsCore]
  | succ fuel ih =>
    intro n ds
    simp only [Nat.toDigitsCore]
    split_ifs
    · simp
    · rw [ih (n / 10) (Nat.digitChar (n % 10) :: ds), ih (n / 10) [Nat.digitChar (n % 10)]]
      simp

theorem decimalValue_append (xs : List Char) (c : Char) :
    decimalValue (xs ++ [c]) = 10 * decimalValue xs + digitValue c := by
  simp [decimalValue, List.foldl_append]

theorem decimalValue_toDigitsCore (fuel : Nat) :
    ∀ n, n < fuel → decimalValue (Nat.toDigitsCore 10 fuel n []) = n := by
  induction fuel with
  | zero => intro n h; omega
  | succ fuel ih =>
    intro n h
    simp only [Nat.toDigitsCore]
    split_ifs with h0
    · have hn : n < 10 := by omega
      simp [decimalValue, Nat.mod_eq_of_lt hn, digitValue_digitChar n hn]
    · rw [toDigitsCore_append, decimalValue_append, ih (n / 10) (by omega),
        digitValue_digitChar _ (Nat.mod_lt n (by decide))]
      omega

theorem isDigit_toDigitsCore (fuel : Nat) :
    ∀ (n : Nat) (ds : List Char), (∀ c ∈ ds, c.isDigit = true) →
      ∀ c ∈ Nat.toDigitsCore 10 fuel n ds, c.isDigit = true := by
  induction fuel with
  | zero => intro n ds h; simpa [Nat.toDigitsCore] using h
  | succ fuel ih =>
    intro n ds h
    have hd : ∀ c ∈ Nat.digitChar (n % 10) :: ds, c.isDigit = true := by
      intro c hc
      rcases List.mem_cons.1 hc with rfl | hc
      · exact isDigit_digitChar _ (Nat.mod_lt n (by decide))
      · exact h c hc
    simp only [Nat.toDigitsCore]
    split_ifs
    · exact hd
    · exact ih _ _ hd

theorem decimalValue_repr (n : Nat) : decimalValue (toString n).data = n :=
  decimalValue_toDigitsCore (n + 1) n (by omega)

theorem isDigit_repr (n : Nat) : ∀ c ∈ (toString n).data, c.isDigit = true :=
  isDigit_toDigitsCore (n + 1) n [] (by simp)

theorem takeWhile_stroke (xs ys : List Char) (h : ∀ c ∈ xs, c.isDigit = true ∨ c = '-') :
    (xs ++ '/' :: ys).takeWhile (· ≠ '/') = xs ∧
      (xs ++ '/' :: ys).dropWhile (· ≠ '/') = '/' :: ys := by
  induction xs with
  | nil => simp
  | cons x xs ih =>
    have hx : x ≠ '/' := by
      rcases h x (by simp) with hx | hx
      · rintro rfl
        revert hx
        decide
      · rw [hx]
        decide
    obtain ⟨h1, h2⟩ := ih (fun c hc => h c (by simp [hc]))
    simp only [ne_eq, decide_not] at h1 h2
    simp [hx, h1, h2]

theorem toString_int_data (i : Int) :
    (∀ c ∈ (toString i).data, c.isDigit = true ∨ c = '-') ∧
      (match (toString i).data with
        | '-' :: digits => -(decimalValue digits : Int)
        | digits => (decimalValue digits : Int)) = i := by
  cases i with
  | ofNat m =>
    have hdata : (toString (Int.ofNat m)).data = (toString m).data := rfl
    rw [hdata]
    refine ⟨fun c hc => Or.inl (isDigit_repr m c hc), ?_⟩
    have hval := decimalValue_repr m
    have hdig := isDigit_repr m
    cases hcs : (toString m).data with
    | nil =>
      rw [hcs] at hval
      simp [← hval]
    | cons c cs =>
      rw [hcs] at hval hdig
      have hc : c ≠ '-' := by
        have := hdig c (by simp)
        rintro rfl
        revert this
        decide
      split
      · rename_i heq
        simp only [List.cons.injEq] at heq
        exact absurd heq.1 hc
      · simp [hval]
  | negSucc m =>
    have hdata : (toString (Int.negSucc m)).data = '-' :: (toString (m + 1)).data := rfl
    rw [hdata]
    refine ⟨?_, ?_⟩
    · intro c hc
      rcases List.mem_cons.1 hc with rfl | hc
      · exact Or.inr rfl
      · exact Or.inl (isDigit_repr _ c hc)
    · simp only [decimalValue_repr]
      rfl

theorem readFraction_ratString (q : ℚ) : readFraction (ratString q) = (q.num, q.den) := by
  have hdata : (ratString q).toList = (toString q.num).data ++ '/' :: (toString q.den).data := by
    simp [ratString, String.toList, String.data_append]
  obtain ⟨hchars, hnum⟩ := toString_int_data q.num
  obtain ⟨h1, h2⟩ := takeWhile_stroke (toString q.num).data (toString q.den).data hchars
  simp only [readFraction, hdata, h1, h2, List.drop_one, List.tail_cons, decimalValue_repr]
  rw [hnum]

/-- C1, the claim refuted: the Numeric column holding 3/2 encodes to the JSON
string `"3/2"`, which is a fraction and not a decimal text such as `"1.5"`. -/
theorem three_halves_not_decimal :
    Col.MarshalJSON ⟨⟨"price", NumericFieldType⟩, .rat threeHalves⟩ = .ok (.str "3/2") ∧
      isDecimalText "3/2" = false ∧ isDecimalText "1.5" = true ∧
      Col.MarshalJSON ⟨⟨"price", NumericFieldType⟩, .rat threeHalves⟩ ≠ .ok (.str "1.5") := by
  have h : Col.MarshalJSON ⟨⟨"price", NumericFieldType⟩, .rat threeHalves⟩ = .ok (.str "3/2") :=
    rfl
  refine ⟨h, by decide, by decide, ?_⟩
  rw [h]
  exact fun h2 => absurd (Json.str.inj (Except.ok.inj h2)) (by decide)

/-- C1 as amended. A Numeric or BigNumeric column with a present `*big.Rat`
encodes, for every rational, to a JSON string (never a JSON number) whose
content is the fraction `a/b` in lowest terms, numerator and denominator in
decimal digits and the denominator written also when it is 1; the text is
exact: reading it back gives the numerator and the denominator of the value. -/
theorem rational_is_fraction_text (name type : String) (q : ℚ)
    (h : type = NumericFieldType ∨ type = BigNumericFieldType) :
    Col.MarshalJSON ⟨⟨name, type⟩, .rat q⟩ =
        .ok (.str (toString q.num ++ "/" ++ toString q.den)) ∧
      (∀ n, Col.MarshalJSON ⟨⟨name, type⟩, .rat q⟩ ≠ .ok (.num n)) ∧
      readFraction (toString q.num ++ "/" ++ toString q.den) = (q.num, q.den) := by
  have h1 : Col.MarshalJSON ⟨⟨name, type⟩, .rat q⟩ =
      .ok (.str (toString q.num ++ "/" ++ toString q.den)) := by
    rcases h with h | h <;> subst h <;>
      simp [Col.MarshalJSON, jsonMarshalString, ratString, IntegerFieldType, StringFieldType,
        BooleanFieldType, FloatFieldType, NumericFieldType, BigNumericFieldType]
  refine ⟨h1, ?_, readFraction_ratString q⟩
  intro n hn
  rw [h1] at hn
  cases hn

/-- C1 as amended, at 3/2 in a Numeric column. -/
theorem rational_is_fraction_text_witness :
    Col.MarshalJSON ⟨⟨"price", NumericFieldType⟩, .rat threeHalves⟩ =
        .ok (.str (toString threeHalves.num ++ "/" ++ toString threeHalves.den)) ∧
      (∀ n, Col.MarshalJSON ⟨⟨"price", NumericFieldType⟩, .rat threeHalves⟩ ≠ .ok (.num n)) ∧
      readFraction (toString threeHalves.num ++ "/" ++ toString threeHalves.den) =
        (threeHalves.num, threeHalves.den) :=
  rational_is_fraction_text "price" NumericFieldType threeHalves (Or.inl rfl)

/-- A BigNumeric value of thirty significant digits keeps every digit. -/
theorem many_digits_text :
    Col.MarshalJSON ⟨⟨"total", BigNumericFieldType⟩, .rat manyDigits⟩ =
      .ok (.str "123456789012345678901234567891/1000000000") := by
  rfl

/-! ### Rows -/

theorem Slice.elems_appendAll {α : Type} (rows : List α) :
    ∀ s : Slice α, Slice.elems (Slice.appendAll s rows) = Slice.elems s ++ rows := by
  induction rows with
  | nil => intro s; simp [Slice.appendAll]
  | cons r rows ih =>
    intro s
    have := ih (Slice.append s r)
    simp only [Slice.appendAll, List.foldl_cons] at this ⊢
    rw [this]
    simp [Slice.append, Slice.elems]

theorem Row.loadFrom_eq (s : Schema) :
    ∀ (v : List Value) (idx : Nat) (cols : List Col), idx + v.length ≤ s.length →
      Row.loadFrom s idx v (some cols) =
        some (some (cols ++ List.zipWith Col.mk (s.drop idx) v)) := by
  intro v
  induction v with
  | nil => intro idx cols _; simp [Row.loadFrom]
  | cons val rest ih =>
    intro idx cols h
    simp only [List.length_cons] at h
    have hidx : idx < s.length := by omega
    rw [Row.loadFrom, List.getElem?_eq_getElem hidx]
    simp only [Slice.append, Slice.elems]
    rw [ih (idx + 1) _ (by omega)]
    rw [List.drop_eq_getElem_cons hidx, List.zipWith_cons_cons, List.append_assoc,
      List.singleton_append]

theorem Row.Load_eq (r : Row) (v : List Value) (s : Schema) (h : v.length ≤ s.length) :
    Row.Load r v s = some (Row.paired s v, none) := by
  have := Row.loadFrom_eq s v 0 [] (by omega)
  simp [Row.Load, this, Row.paired]

theorem marshalElems_all_ok {α : Type} (typ : String) (f : α → Except GoError Json) :
    ∀ xs : List α, (∀ (i : Nat) (x : α), xs[i]? = some x → ∃ j, f x = .ok j) →
      ∃ js : List Json, marshalElems typ f xs = .ok js ∧ js.length = xs.length ∧
        ∀ (i : Nat) (x : α), xs[i]? = some x → ∃ j, js[i]? = some j ∧ f x = .ok j := by
  intro xs
  induction xs with
  | nil => intro _; exact ⟨[], rfl, rfl, by simp⟩
  | cons x xs ih =>
    intro h
    obtain ⟨j, hj⟩ := h 0 x (by simp)
    obtain ⟨js, hjs, hlen, hget⟩ := ih (fun i y hy => h (i + 1) y (by simpa using hy))
    refine ⟨j :: js, by simp [marshalElems, hj, hjs], by simp [hlen], ?_⟩
    intro i y hy
    cases i with
    | zero =>
      simp only [List.getElem?_cons_zero, Option.some.injEq] at hy
      subst hy
      exact ⟨j, by simp, hj⟩
    | succ i => simpa using hget i y (by simpa using hy)

theorem marshalElems_first_error {α : Type} (typ : String) (f : α → Except GoError Json) :
    ∀ (xs : List α) (i : Nat) (x : α) (err : GoError), xs[i]? = some x → f x = .error err →
      (∀ (k : Nat) (y : α), k < i → xs[k]? = some y → ∃ j, f y = .ok j) →
      marshalElems typ f xs = .error (.marshaler typ err) := by
  intro xs
  induction xs with
  | nil => intro i x err hx; simp at hx
  | cons x0 xs ih =>
    intro i x err hx hf hbefore
    cases i with
    | zero =>
      simp only [List.getElem?_cons_zero, Option.some.injEq] at hx
      subst hx
      simp [marshalElems, hf]
    | succ i =>
      obtain ⟨j, hj⟩ := hbefore 0 x0 (by omega) (by simp)
      have := ih i x err (by simpa using hx) hf
        (fun k y hk hy => hbefore (k + 1) y (by omega) (by simpa using hy))
      simp [marshalElems, hj, this]

theorem marshalElems_any_error {α : Type} (typ : String) (f : α → Except GoError Json) :
    ∀ (xs : List α) (i : Nat) (x : α) (err : GoError), xs[i]? = some x → f x = .error err →
      ∃ err2, marshalElems typ f xs = .error err2 := by
  intro xs
  induction xs with
  | nil => intro i x err hx; simp at hx
  | cons x0 xs ih =>
    intro i x err hx hf
    cases h0 : f x0 with
    | error e => exact ⟨.marshaler typ e, by simp [marshalElems, h0]⟩
    | ok j =>
      cases i with
      | zero =>
        simp only [List.getElem?_cons_zero, Option.some.injEq] at hx
        subst hx
        rw [hf] at h0
        cases h0
      | succ i =>
        obtain ⟨err2, h2⟩ := ih i x err (by simpa using hx) hf
        exact ⟨err2, by simp [marshalElems, h0, h2]⟩

theorem getElem?_paired (schema : Schema) (values : List Value) (i : Nat) (c : Col) :
    (List.zipWith Col.mk schema values)[i]? = some c ↔
      schema[i]? = some c.Schema ∧ values[i]? = some c.Val := by
  rw [List.getElem?_zipWith]
  cases hs : schema[i]? <;> cases hv : values[i]? <;> cases c <;> simp

/-- C7. For values and a schema of equal length, `Row.Load` returns no error,
and serializing the row it built gives: when every column encodes, a JSON array
of `len(schema)` elements, the i-th being the encoding of `(schema[i],
values[i])`; when a column fails and the ones before it encode, the error of
that column (inside the `MarshalerError` that `encoding/json` puts around the
error of a `MarshalJSON` method) and no bytes; and when any column fails, an
error and no bytes. -/
theorem row_serialization (r : Row) (values : List Value) (schema : Schema)
    (hlen : values.length = schema.length) :
    ∃ row, Row.Load r values schema = some (row, none) ∧
      ((∀ (i : Nat) (f : FieldSchema) (v : Value), schema[i]? = some f → values[i]? = some v →
          ∃ j, Col.MarshalJSON ⟨f, v⟩ = .ok j) →
        ∃ js : List Json, Row.MarshalJSON row = .ok (.arr js) ∧ js.length = schema.length ∧
          ∀ (i : Nat) (f : FieldSchema) (v : Value), schema[i]? = some f → values[i]? = some v →
            ∃ j, js[i]? = some j ∧ Col.MarshalJSON ⟨f, v⟩ = .ok j) ∧
      (∀ (i : Nat) (f : FieldSchema) (v : Value) (err : GoError),
        schema[i]? = some f → values[i]? = some v →
        Col.MarshalJSON ⟨f, v⟩ = .error err →
        (∀ (k : Nat) (f2 : FieldSchema) (v2 : Value), k < i →
          schema[k]? = some f2 → values[k]? = some v2 →
          ∃ j, Col.MarshalJSON ⟨f2, v2⟩ = .ok j) →
        Row.MarshalJSON row = .error (.marshaler "main.Col" err)) ∧
      (∀ (i : Nat) (f : FieldSchema) (v : Value) (err : GoError),
        schema[i]? = some f → values[i]? = some v →
        Col.MarshalJSON ⟨f, v⟩ = .error err →
        ∃ err2, Row.MarshalJSON row = .error err2) := by
  refine ⟨Row.paired schema values, Row.Load_eq r values schema (by omega), ?_, ?_, ?_⟩
  · intro hall
    obtain ⟨js, hjs, hl, hget⟩ := marshalElems_all_ok "main.Col" Col.MarshalJSON
      (List.zipWith Col.mk schema values)
      (fun i c hc => hall i c.Schema c.Val ((getElem?_paired schema values i c).1 hc).1
        ((getElem?_paired schema values i c).1 hc).2)
    refine ⟨js, by simp [Row.MarshalJSON, Row.paired, marshalSlice, hjs], ?_, ?_⟩
    · simp [hl, hlen]
    · intro i f v hf hv
      exact hget i ⟨f, v⟩ ((getElem?_paired schema values i ⟨f, v⟩).2 ⟨hf, hv⟩)
  · intro i f v err hf hv herr hbefore
    have := marshalElems_first_error "main.Col" Col.MarshalJSON
      (List.zipWith Col.mk schema values) i ⟨f, v⟩ err
      ((getElem?_paired schema values i ⟨f, v⟩).2 ⟨hf, hv⟩) herr
      (fun k c hk hc => hbefore k c.Schema c.Val hk
        ((getElem?_paired schema values k c).1 hc).1 ((getElem?_paired schema values k c).1 hc).2)
    simp [Row.MarshalJSON, Row.paired, marshalSlice, this]
  · intro i f v err hf hv herr
    obtain ⟨err2, h2⟩ := marshalElems_any_error "main.Col" Col.MarshalJSON
      (List.zipWith Col.mk schema values) i ⟨f, v⟩ err
      ((getElem?_paired schema values i ⟨f, v⟩).2 ⟨hf, hv⟩) herr
    exact ⟨err2, by simp [Row.MarshalJSON, Row.paired, marshalSlice, h2]⟩

/-- C7 at a row of an Integer and a Numeric column. -/
theorem row_serialization_witness :
    ∃ row, Row.Load ⟨none⟩ priceValues priceSchema = some (row, none) ∧
      ((∀ (i : Nat) (f : FieldSchema) (v : Value),
          priceSchema[i]? = some f → priceValues[i]? = some v →
          ∃ j, Col.MarshalJSON ⟨f, v⟩ = .ok j) →
        ∃ js : List Json, Row.MarshalJSON row = .ok (.arr js) ∧ js.length = priceSchema.length ∧
          ∀ (i : Nat) (f : FieldSchema) (v : Value),
            priceSchema[i]? = some f → priceValues[i]? = some v →
            ∃ j, js[i]? = some j ∧ Col.MarshalJSON ⟨f, v⟩ = .ok j) ∧
      (∀ (i : Nat) (f : FieldSchema) (v : Value) (err : GoError),
        priceSchema[i]? = some f → priceValues[i]? = some v →
        Col.MarshalJSON ⟨f, v⟩ = .error err →
        (∀ (k : Nat) (f2 : FieldSchema) (v2 : Value), k < i →
          priceSchema[k]? = some f2 → priceValues[k]? = some v2 →
          ∃ j, Col.MarshalJSON ⟨f2, v2⟩ = .ok j) →
        Row.MarshalJSON row = .error (.marshaler "main.Col" err)) ∧
      (∀ (i : Nat) (f : FieldSchema) (v : Value) (err : GoError),
        priceSchema[i]? = some f → priceValues[i]? = some v →
        Col.MarshalJSON ⟨f, v⟩ = .error err →
        ∃ err2, Row.MarshalJSON row = .error err2) :=
  row_serialization ⟨none⟩ priceValues priceSchema rfl

/-- The row of `priceValues` as the JSON array it serializes to, and the same
row with a string in its Numeric column, which fails as a whole. -/
theorem price_row_json :
    Row.MarshalJSON (Row.paired priceSchema priceValues) = .ok (.arr [.num 7, .str "3/2"]) ∧
      Row.MarshalJSON (Row.paired priceSchema [.int64 7, .str "1.5"]) =
        .error (.marshaler "main.Col" (convertError "price")) ∧
      Row.MarshalJSON (Row.paired [] []) = .ok (.arr []) :=
  ⟨rfl, rfl, rfl⟩

/-! ### The iterator -/

theorem RowIterator.fill_pulls (it : RowIterator) (size : Int) :
    (it.fill size).1.pulls = it.pulls := by
  unfold RowIterator.fill
  split <;> rfl

theorem RowIterator.nextLoop_pulls :
    ∀ (fuel : Nat) (it it2 : RowIterator) (e : Option GoError),
      RowIterator.nextLoop fuel it = some (it2, e) → it2.pulls = it.pulls := by
  intro fuel
  induction fuel with
  | zero =>
    intro it it2 e h
    simp only [RowIterator.nextLoop] at h
    split_ifs at h <;> simp only [Option.some.injEq, Prod.mk.injEq] at h <;>
      (obtain ⟨h1, _⟩ := h; rw [← h1])
  | succ fuel ih =>
    intro it it2 e h
    simp only [RowIterator.nextLoop] at h
    split_ifs at h
    · have hfill := RowIterator.fill_pulls it it.MaxSize
      split at h
      · rename_i it3 err heq
        simp only [Option.some.injEq, Prod.mk.injEq] at h
        obtain ⟨h1, _⟩ := h
        rw [← h1]
        rw [heq] at hfill
        exact hfill
      · rename_i it3 heq
        rw [heq] at hfill
        have := ih _ _ _ h
        rw [this]
        split_ifs <;> exact hfill
    · simp only [Option.some.injEq, Prod.mk.injEq] at h
      obtain ⟨h1, _⟩ := h
      rw [← h1]
    · simp only [Option.some.injEq, Prod.mk.injEq] at h
      obtain ⟨h1, _⟩ := h
      rw [← h1]

theorem RowIterator.next_pulls (fuel : Nat) (it it2 : RowIterator) (e : Option GoError)
    (h : it.next fuel = some (it2, e)) : it2.pulls = it.pulls := by
  unfold RowIterator.next at h
  split at h
  · simp only [Option.some.injEq, Prod.mk.injEq] at h
    obtain ⟨h1, _⟩ := h
    rw [← h1]
  · exact RowIterator.nextLoop_pulls _ _ _ _ h

theorem RowIterator.loadFirst_pulls (it : RowIterator) : it.loadFirst.1.pulls = it.pulls := by
  unfold RowIterator.loadFirst
  split
  · rfl
  · split <;> rfl

theorem RowIterator.Next_pulls (fuel : Nat) (it it2 : RowIterator) (p : Pulled)
    (h : it.Next fuel = some (it2, p)) : it2.pulls = it.pulls + 1 := by
  unfold RowIterator.Next at h
  split at h
  · cases h
  · rename_i it3 err hnext
    simp only [Option.some.injEq, Prod.mk.injEq] at h
    obtain ⟨h1, _⟩ := h
    rw [← h1]
    exact RowIterator.next_pulls _ _ _ _ hnext
  · rename_i it3 hnext
    simp only [Option.some.injEq] at h
    have h3 := RowIterator.next_pulls _ _ _ _ hnext
    have h4 := RowIterator.loadFirst_pulls it3
    rw [h] at h4
    simp only at h3 h4
    omega

/-! ### The pull loops -/

theorem Slice.appendAll_cons {α : Type} (s : Slice α) (row : α) (rows : List α) :
    Slice.appendAll s (row :: rows) = Slice.appendAll (Slice.append s row) rows := rfl

theorem Pulls.pulls_last {fuel : Nat} {it last : RowIterator} {rows : List Row} {err : GoError}
    (h : Pulls fuel it rows last err) : last.pulls = it.pulls + rows.length + 1 := by
  induction h with
  | stop hnext => simpa using RowIterator.Next_pulls _ _ _ _ hnext
  | row hnext _ ih =>
    have := RowIterator.Next_pulls _ _ _ _ hnext
    simp only [List.length_cons]
    omega

theorem queryToken.loop_short {fuel : Nat} {it last : RowIterator} {rows : List Row}
    {err : GoError} (h : Pulls fuel it rows last err) :
    ∀ (n : Nat) (results : Slice Row), n ≤ rows.length →
      ∃ it2, queryToken.loop fuel n it results =
          some (.finished it2 (Slice.appendAll results (rows.take n))) ∧
        it2.pulls = it.pulls + n := by
  induction h with
  | stop hnext =>
    intro n results hn
    simp only [List.length_nil, Nat.le_zero_eq] at hn
    subst hn
    exact ⟨_, rfl, rfl⟩
  | @row _ _ _ r _ _ hnext _ ih =>
    intro n results hn
    cases n with
    | zero => exact ⟨_, rfl, rfl⟩
    | succ n =>
      simp only [List.length_cons, Nat.add_le_add_iff_right] at hn
      obtain ⟨it3, h3, hp⟩ := ih n (Slice.append results r) hn
      refine ⟨it3, ?_, ?_⟩
      · simp only [queryToken.loop, hnext, h3, List.take_succ_cons, Slice.appendAll_cons]
      · have := RowIterator.Next_pulls _ _ _ _ hnext
        omega

theorem queryToken.loop_done {fuel : Nat} {it last : RowIterator} {rows : List Row}
    (h : Pulls fuel it rows last .done) :
    ∀ (n : Nat) (results : Slice Row), rows.length < n →
      queryToken.loop fuel n it results =
        some (.finished last (Slice.appendAll results rows)) := by
  generalize hd : GoError.done = err at h
  induction h with
  | stop hnext =>
    intro n results hn
    subst hd
    cases n with
    | zero => simp at hn
    | succ n => simp [queryToken.loop, hnext, Slice.appendAll]
  | row hnext _ ih =>
    intro n results hn
    cases n with
    | zero => simp at hn
    | succ n =>
      simp only [List.length_cons, Nat.add_lt_add_iff_right] at hn
      simp only [queryToken.loop, hnext, ih hd n _ hn, Slice.appendAll_cons]

theorem queryToken.loop_failed {fuel : Nat} {it last : RowIterator} {rows : List Row}
    {err : GoError} (h : Pulls fuel it rows last err) (herr : err ≠ .done) :
    ∀ (n : Nat) (results : Slice Row), rows.length < n →
      queryToken.loop fuel n it results =
        some (.fatal ("Error iterating through results: " ++ err.Error)) := by
  induction h with
  | stop hnext =>
    intro n results hn
    cases n with
    | zero => simp at hn
    | succ n =>
      rename_i err2
      cases err2 <;> simp_all [queryToken.loop]
  | row hnext _ ih =>
    intro n results hn
    cases n with
    | zero => simp at hn
    | succ n =>
      simp only [List.length_cons, Nat.add_lt_add_iff_right] at hn
      simp only [queryToken.loop, hnext, ih herr n _ hn]

theorem query.scan_done {fuel : Nat} {it last : RowIterator} {rows : List Row}
    (h : Pulls fuel it rows last .done) :
    ∀ (n : Nat) (results : Slice Row), rows.length < n →
      query.loop fuel n it results =
        some (.finished last (Slice.appendAll results rows)) := by
  generalize hd : GoError.done = err at h
  induction h with
  | stop hnext =>
    intro n results hn
    subst hd
    cases n with
    | zero => simp at hn
    | succ n => simp [query.loop, hnext, Slice.appendAll]
  | row hnext _ ih =>
    intro n results hn
    cases n with
    | zero => simp at hn
    | succ n =>
      simp only [List.length_cons, Nat.add_lt_add_iff_right] at hn
      simp only [query.loop, hnext, ih hd n _ hn, Slice.appendAll_cons]

theorem query.scan_failed {fuel : Nat} {it last : RowIterator} {rows : List Row}
    {err : GoError} (h : Pulls fuel it rows last err) (herr : err ≠ .done) :
    ∀ (n : Nat) (results : Slice Row), rows.length < n →
      query.loop fuel n it results =
        some (.fatal ("Error iterating through results: " ++ err.Error)) := by
  induction h with
  | stop hnext =>
    intro n results hn
    cases n with
    | zero => simp at hn
    | succ n =>
      rename_i err2
      cases err2 <;> simp_all [query.loop]
  | row hnext _ ih =>
    intro n results hn
    cases n with
    | zero => simp at hn
    | succ n =>
      simp only [List.length_cons, Nat.add_lt_add_iff_right] at hn
      simp only [query.loop, hnext, ih herr n _ hn]

/-! ### The handlers -/

/-- C3, the code at a query without rows: the first pull returns
`iterator.Done`, `results` is still the nil slice, and `json.Marshal` writes a
nil slice as `null`, which is not the empty array. -/
theorem query_zero_rows (fuel : Nat) (client : Client) (sql : String) (src : DataSource)
    (last : RowIterator) (hfuel : 0 < fuel) (hsrc : client sql = .ok src)
    (hdone : (newRowIterator src).Next fuel = some (last, .err .done)) :
    query fuel client (.ok sql) = some (.returned .null) ∧
      query fuel client (.ok sql) ≠ some (.returned (.arr [])) := by
  have h : query fuel client (.ok sql) = some (.returned .null) := by
    obtain ⟨n, rfl⟩ : ∃ n, fuel = n + 1 := ⟨fuel - 1, by omega⟩
    simp [query, hsrc, query.loop, hdone, marshalSlice]
  refine ⟨h, ?_⟩
  rw [h]
  intro h2
  cases h2

/-- C3 at the empty result set of one Integer column. -/
theorem query_zero_rows_witness :
    query 1 flakyClient (.ok "SELECT 1 WHERE FALSE") = some (.returned .null) ∧
      query 1 flakyClient (.ok "SELECT 1 WHERE FALSE") ≠ some (.returned (.arr [])) :=
  query_zero_rows 1 flakyClient "SELECT 1 WHERE FALSE" (emptySource idSchema)
    { src := emptySource idSchema, Token := "", MaxSize := 0,
      err := some .done, atEnd := true, rows := [], pulls := 1 }
    (by decide) rfl rfl

/-- C2, the claim refuted: when the submission fails, and when the second pull
fails after a first row, `query` and `queryToken` return no error to the
caller: they call `log.Fatalf`, which ends the process, and the call after the
failed one is not served (while it is served when it comes alone). -/
theorem failed_query_ends_process :
    query 2 flakyClient (.ok "bad") = some (.fatal "Failed to execute query: syntax error") ∧
    queryToken 2 flakyClient (.ok ("bad", "", 2)) =
      some (.fatal "Failed to execute query: syntax error") ∧
    query 2 flakyClient (.ok "broken") =
      some (.fatal "Error iterating through results: connection reset") ∧
    queryToken 2 flakyClient (.ok ("broken", "", 2)) =
      some (.fatal "Error iterating through results: connection reset") ∧
    (¬ ∃ err, query 2 flakyClient (.ok "bad") = some (.failed err)) ∧
    serveAll true (query 2 flakyClient) [.ok "good"] = [.returned .null] ∧
    serveAll true (query 2 flakyClient) [.ok "bad", .ok "good"] = [] := by
  have h1 : query 2 flakyClient (.ok "bad") =
      some (.fatal "Failed to execute query: syntax error") := rfl
  refine ⟨h1, rfl, rfl, rfl, ?_, rfl, rfl⟩
  rintro ⟨err, he⟩
  rw [h1] at he
  cases he

/-- C2 as amended. When the submission fails, and when a pull fails (also after
rows that were pulled without error), `query` and `queryToken` do not return:
they call `log.Fatalf` with the error, which ends the process; no payload and no
error reach the caller, and no later call is served. -/
theorem failure_is_fatal (fuel : Nat) (client : Client) (sql token : String) (pageSize : Int) :
    (∀ err, client sql = .error err →
      query fuel client (.ok sql) =
        some (.fatal ("Failed to execute query: " ++ err.Error)) ∧
      queryToken fuel client (.ok (sql, token, pageSize)) =
        some (.fatal ("Failed to execute query: " ++ err.Error))) ∧
    (∀ src rows last err, client sql = .ok src → err ≠ .done →
      Pulls fuel (newRowIterator src) rows last err → rows.length < fuel →
      query fuel client (.ok sql) =
        some (.fatal ("Error iterating through results: " ++ err.Error))) ∧
    (∀ src rows last err, client sql = .ok src → err ≠ .done →
      Pulls fuel (queryToken.configure (newRowIterator src) token pageSize) rows last err →
      rows.length < pageSize.toNat →
      queryToken fuel client (.ok (sql, token, pageSize)) =
        some (.fatal ("Error iterating through results: " ++ err.Error))) ∧
    (∀ recovers msg calls, query fuel client (.ok sql) = some (.fatal msg) →
      serveAll recovers (query fuel client) (.ok sql :: calls) = []) ∧
    (∀ recovers msg calls,
      queryToken fuel client (.ok (sql, token, pageSize)) = some (.fatal msg) →
      serveAll recovers (queryToken fuel client) (.ok (sql, token, pageSize) :: calls) = []) := by
  refine ⟨?_, ?_, ?_, ?_, ?_⟩
  · intro err h
    simp [query, queryToken, queryToken.page, h]
  · intro src rows last err hsrc herr hp hlen
    simp [query, hsrc, query.scan_failed hp herr fuel none hlen]
  · intro src rows last err hsrc herr hp hlen
    simp [queryToken, queryToken.page, hsrc, queryToken.loop_failed hp herr _ none hlen]
  · intro recovers msg calls h
    simp [serveAll, h]
  · intro recovers msg calls h
    simp [serveAll, h]

/-- C2 as amended, at a rejected query and at a result set whose second fetch
fails after one row. -/
theorem failure_is_fatal_witness :
    (query 2 flakyClient (.ok "bad") =
        some (.fatal ("Failed to execute query: " ++ (GoError.errorf "syntax error").Error)) ∧
      queryToken 2 flakyClient (.ok ("bad", "", 2)) =
        some (.fatal ("Failed to execute query: " ++ (GoError.errorf "syntax error").Error))) ∧
    query 2 flakyClient (.ok "broken") =
      some (.fatal ("Error iterating through results: " ++
        (GoError.errorf "connection reset").Error)) :=
  ⟨(failure_is_fatal 2 flakyClient "bad" "" 2).1 (.errorf "syntax error") rfl,
    (failure_is_fatal 2 flakyClient "broken" "" 2).2.1 brokenSource
      [Row.paired brokenSource.Schema [.int64 1]]
      { src := brokenSource, Token := "r", MaxSize := 0, atEnd := false, rows := [], pulls := 2,
        err := some (.errorf "connection reset") }
      (.errorf "connection reset") rfl (fun h => GoError.noConfusion h)
      (@Pulls.row 2 _
        { src := brokenSource, Token := "r", MaxSize := 0, atEnd := false, rows := [], pulls := 1,
          err := none }
        _ _ _ _ rfl (Pulls.stop rfl))
      (by decide)⟩

/-- C6, the claim refuted: a result of one row whose Date column holds NULL.
No pull fails (the first returns the row, the second `iterator.Done`), and yet
`queryToken` with a page size of 1 returns no rows: the row does not serialize
and the handler returns that error. -/
theorem null_date_page_fails :
    (∃ last, Pulls 1
      (queryToken.configure (newRowIterator (pagedSource birthSchema [[.nil]] exactBatch)) "" 1)
      [Row.paired birthSchema [.nil]] last .done) ∧
    queryToken 1 nullDateClient (.ok ("SELECT born", "", 1)) =
      some (.failed (.marshaler "main.Row" (.marshaler "main.Col" (convertError "born")))) ∧
    ¬ ∃ payload, queryToken 1 nullDateClient (.ok ("SELECT born", "", 1)) =
      some (.returned payload) := by
  have h : queryToken 1 nullDateClient (.ok ("SELECT born", "", 1)) =
      some (.failed (.marshaler "main.Row" (.marshaler "main.Col" (convertError "born")))) :=
    rfl
  refine ⟨⟨_, @Pulls.row 1 _
      { src := pagedSource birthSchema [[.nil]] exactBatch, Token := "", MaxSize := 1,
        atEnd := true, rows := [], pulls := 1, err := none }
      _ _ _ _ rfl (Pulls.stop rfl)⟩, h, ?_⟩
  rintro ⟨payload, hp⟩
  rw [h] at hp
  cases hp

/-- C6 as amended. When pulling from the iterator, from where the call resumes
it, returns the rows `rows` and no pull of the call fails, `queryToken` makes at
most `pageSize` pulls and collects exactly the first
`min (max pageSize 0) (len rows)` of them in order: all of them when `pageSize`
is larger than their number, and without any pull none of them when `pageSize`
is zero or negative. When every collected row serializes, the handler returns
their encodings in that order as the `rows` of its payload, with the token of
the iterator; when a collected row does not serialize and the ones before it
do, the handler returns the error of that row and no payload. -/
theorem page_rows (fuel : Nat) (client : Client) (sql token : String) (pageSize : Int)
    (src : DataSource) (rows : List Row) (last : RowIterator) (err : GoError)
    (hsrc : client sql = .ok src)
    (hpulls : Pulls fuel (queryToken.configure (newRowIterator src) token pageSize)
      rows last err)
    (hok : rows.length < pageSize.toNat → err = .done) :
    ∃ it results,
      queryToken.loop fuel pageSize.toNat
        (queryToken.configure (newRowIterator src) token pageSize) none =
          some (.finished it results) ∧
      (it.pulls : Int) ≤ max pageSize 0 ∧
      Slice.elems results = rows.take (min (max pageSize 0).toNat rows.length) ∧
      ((rows.length : Int) < pageSize → Slice.elems results = rows) ∧
      (pageSize ≤ 0 → it.pulls = 0 ∧ results = none) ∧
      ((∀ (i : Nat) (row : Row), (Slice.elems results)[i]? = some row →
          ∃ j, Row.MarshalJSON row = .ok j) →
        ∃ js : List Json, js.length = min (max pageSize 0).toNat rows.length ∧
          (∀ (i : Nat) (row : Row), (Slice.elems results)[i]? = some row →
            ∃ j, js[i]? = some j ∧ Row.MarshalJSON row = .ok j) ∧
          queryToken fuel client (.ok (sql, token, pageSize)) =
            some (.returned (.obj [
              ("rows", if min (max pageSize 0).toNat rows.length = 0 then .null else .arr js),
              ("token", .str it.Token)]))) ∧
      (∀ (i : Nat) (row : Row) (e : GoError), (Slice.elems results)[i]? = some row →
        Row.MarshalJSON row = .error e →
        (∀ (k : Nat) (before : Row), k < i → (Slice.elems results)[k]? = some before →
          ∃ j, Row.MarshalJSON before = .ok j) →
        queryToken fuel client (.ok (sql, token, pageSize)) =
          some (.failed (.marshaler "main.Row" e))) := by
  have h0 : (queryToken.configure (newRowIterator src) token pageSize).pulls = 0 := by
    unfold queryToken.configure newRowIterator
    split_ifs <;> rfl
  -- the loop, the pulls and the rows collected
  have hrun : ∃ it, queryToken.loop fuel pageSize.toNat
      (queryToken.configure (newRowIterator src) token pageSize) none =
        some (.finished it (Slice.appendAll none
          (rows.take (min (max pageSize 0).toNat rows.length)))) ∧
      (it.pulls : Int) ≤ max pageSize 0 ∧ (pageSize ≤ 0 → it.pulls = 0) := by
    by_cases hn : pageSize.toNat ≤ rows.length
    · obtain ⟨it, hloop, hp⟩ := queryToken.loop_short hpulls pageSize.toNat none hn
      have hmin : min (max pageSize 0).toNat rows.length = pageSize.toNat := by omega
      refine ⟨it, by rw [hmin]; exact hloop, by rw [hp, h0]; omega, ?_⟩
      intro hle
      rw [hp, h0]
      omega
    · have hlt : rows.length < pageSize.toNat := by omega
      have hdone := hok hlt
      subst hdone
      have hloop := queryToken.loop_done hpulls pageSize.toNat none hlt
      have hp := hpulls.pulls_last
      have hmin : min (max pageSize 0).toNat rows.length = rows.length := by omega
      refine ⟨last, by rw [hmin, List.take_length]; exact hloop, by rw [hp, h0]; omega, ?_⟩
      intro hle
      omega
  obtain ⟨it, hloop, hpulls2, hzero⟩ := hrun
  have helems : Slice.elems (Slice.appendAll none
      (rows.take (min (max pageSize 0).toNat rows.length))) =
      rows.take (min (max pageSize 0).toNat rows.length) := by
    rw [Slice.elems_appendAll]
    simp [Slice.elems]
  have hslice : ∀ page : List Row, marshalSlice "main.Row" Row.MarshalJSON
      (Slice.appendAll none page) =
      if page.length = 0 then .ok .null
      else match marshalElems "main.Row" Row.MarshalJSON page with
        | .error e => .error e
        | .ok js => .ok (.arr js) := by
    intro page
    cases page with
    | nil => simp [Slice.appendAll, marshalSlice]
    | cons r rs =>
      have : Slice.appendAll none (r :: rs) = some (r :: rs) := by
        have h1 := Slice.elems_appendAll (r :: rs) (none : Slice Row)
        cases hs : Slice.appendAll none (r :: rs) with
        | none => rw [hs] at h1; simp [Slice.elems] at h1
        | some xs => rw [hs] at h1; simp [Slice.elems] at h1; rw [h1]
      simp [this, marshalSlice]
  have hlen : (rows.take (min (max pageSize 0).toNat rows.length)).length =
      min (max pageSize 0).toNat rows.length := by
    simp
  refine ⟨it, _, hloop, hpulls2, helems, ?_, ?_, ?_, ?_⟩
  · intro hlt
    rw [helems]
    exact List.take_of_length_le (by omega)
  · intro hle
    refine ⟨hzero hle, ?_⟩
    have : min (max pageSize 0).toNat rows.length = 0 := by omega
    simp [this, Slice.appendAll]
  · intro hall
    rw [helems] at hall ⊢
    obtain ⟨js, hjs, hl, hget⟩ := marshalElems_all_ok "main.Row" Row.MarshalJSON _ hall
    refine ⟨js, by rw [hl, hlen], hget, ?_⟩
    simp only [queryToken, queryToken.page, hsrc, hloop, QueryTokenResp.marshal, hslice, hlen,
      hjs]
    split_ifs <;> rfl
  · intro i row e hrow herr hbefore
    rw [helems] at hrow hbefore
    have hfirst := marshalElems_first_error "main.Row" Row.MarshalJSON _ i row e hrow herr
      hbefore
    have hpos : min (max pageSize 0).toNat rows.length ≠ 0 := by
      intro hz
      rw [hz] at hrow
      simp at hrow
    simp only [queryToken, queryToken.page, hsrc, hloop, QueryTokenResp.marshal, hslice, hlen,
      hfirst, if_neg hpos]

/-- C6 as amended, at the five rows resumed after the third, with a page size
of 10: two pulls return the two rows left and the third returns
`iterator.Done`. -/
theorem page_rows_witness :
    ∃ it results,
      queryToken.loop 1 (10 : Int).toNat
        (queryToken.configure (newRowIterator (pagedSource idSchema fiveRows exactBatch))
          "rrr" 10) none = some (.finished it results) ∧
      (it.pulls : Int) ≤ max 10 0 ∧
      Slice.elems results =
        [Row.paired idSchema [.int64 4], Row.paired idSchema [.int64 5]].take
          (min (max (10 : Int) 0).toNat
            [Row.paired idSchema [.int64 4], Row.paired idSchema [.int64 5]].length) ∧
      ((([Row.paired idSchema [.int64 4], Row.paired idSchema [.int64 5]].length : Nat) : Int)
          < 10 →
        Slice.elems results =
          [Row.paired idSchema [.int64 4], Row.paired idSchema [.int64 5]]) ∧
      ((10 : Int) ≤ 0 → it.pulls = 0 ∧ results = none) ∧
      ((∀ (i : Nat) (row : Row), (Slice.elems results)[i]? = some row →
          ∃ j, Row.MarshalJSON row = .ok j) →
        ∃ js : List Json,
          js.length = min (max (10 : Int) 0).toNat
            [Row.paired idSchema [.int64 4], Row.paired idSchema [.int64 5]].length ∧
          (∀ (i : Nat) (row : Row), (Slice.elems results)[i]? = some row →
            ∃ j, js[i]? = some j ∧ Row.MarshalJSON row = .ok j) ∧
          queryToken 1 fiveRowClient (.ok ("SELECT id", "rrr", 10)) =
            some (.returned (.obj [
              ("rows", if min (max (10 : Int) 0).toNat
                  [Row.paired idSchema [.int64 4], Row.paired idSchema [.int64 5]].length = 0
                then .null else .arr js),
              ("token", .str it.Token)]))) ∧
      (∀ (i : Nat) (row : Row) (e : GoError), (Slice.elems results)[i]? = some row →
        Row.MarshalJSON row = .error e →
        (∀ (k : Nat) (before : Row), k < i → (Slice.elems results)[k]? = some before →
          ∃ j, Row.MarshalJSON before = .ok j) →
        queryToken 1 fiveRowClient (.ok ("SELECT id", "rrr", 10)) =
          some (.failed (.marshaler "main.Row" e))) :=
  page_rows 1 fiveRowClient "SELECT id" "rrr" 10 (pagedSource idSchema fiveRows exactBatch)
    [Row.paired idSchema [.int64 4], Row.paired idSchema [.int64 5]]
    { src := pagedSource idSchema fiveRows exactBatch, Token := "", MaxSize := 10,
      atEnd := true, rows := [], pulls := 3, err := some .done }
    .done rfl
    (@Pulls.row 1 _
      { src := pagedSource idSchema fiveRows exactBatch, Token := "", MaxSize := 10,
        atEnd := true, rows := [[.int64 5]], pulls := 1, err := none }
      _ _ _ _ rfl
      (@Pulls.row 1 _
        { src := pagedSource idSchema fiveRows exactBatch, Token := "", MaxSize := 10,
          atEnd := true, rows := [], pulls := 2, err := none }
        _ _ _ _ rfl (Pulls.stop rfl)))
    (fun _ => rfl)

/-- The last page of the five rows as the payload `queryToken` returns, and the
payload of a page size of zero. -/
theorem last_page_payload :
    queryToken 1 fiveRowClient (.ok ("SELECT id", "rrr", 10)) =
      some (.returned (.obj [("rows", .arr [.arr [.num 4], .arr [.num 5]]),
        ("token", .str "")])) ∧
    queryToken 1 fiveRowClient (.ok ("SELECT id", "rrr", 0)) =
      some (.returned (.obj [("rows", .null), ("token", .str "rrr")])) :=
  ⟨rfl, rfl⟩

/-- C10. Before any pull `queryToken` sets the token of the iterator to the
token of the call when that is not empty and leaves it as it is when it is
empty, sets the page-size hint to `pageSize`, and changes nothing else; and the
`token` of a returned payload is the token of the iterator as the loop left
it. -/
theorem token_and_hint (fuel : Nat) (client : Client) (sql token : String) (pageSize : Int)
    (src : DataSource) (hsrc : client sql = .ok src) :
    (token ≠ "" → (queryToken.configure (newRowIterator src) token pageSize).Token = token) ∧
    (token = "" → (queryToken.configure (newRowIterator src) token pageSize).Token =
      (newRowIterator src).Token) ∧
    (queryToken.configure (newRowIterator src) token pageSize).MaxSize = pageSize ∧
    (queryToken.configure (newRowIterator src) token pageSize).pulls = 0 ∧
    (queryToken.configure (newRowIterator src) token pageSize).rows = [] ∧
    (∀ payload, queryToken fuel client (.ok (sql, token, pageSize)) = some (.returned payload) →
      ∃ it results rows,
        queryToken.loop fuel pageSize.toNat
          (queryToken.configure (newRowIterator src) token pageSize) none =
            some (.finished it results) ∧
        marshalSlice "main.Row" Row.MarshalJSON results = .ok rows ∧
        payload = .obj [("rows", rows), ("token", .str it.Token)]) := by
  refine ⟨?_, ?_, ?_, ?_, ?_, ?_⟩
  · intro h
    simp [queryToken.configure, h]
  · intro h
    simp [queryToken.configure, h]
  · simp [queryToken.configure]
  · unfold queryToken.configure newRowIterator
    split_ifs <;> rfl
  · unfold queryToken.configure newRowIterator
    split_ifs <;> rfl
  · intro payload h
    simp only [queryToken, queryToken.page, hsrc] at h
    cases hloop : queryToken.loop fuel pageSize.toNat
        (queryToken.configure (newRowIterator src) token pageSize) none with
    | none => simp [hloop] at h
    | some res =>
      cases res with
      | fatal msg => simp [hloop] at h
      | panicked => simp [hloop] at h
      | finished it results =>
        simp only [hloop, QueryTokenResp.marshal] at h
        cases hm : marshalSlice "main.Row" Row.MarshalJSON results with
        | error e => simp [hm] at h
        | ok rows =>
          simp only [hm, Option.some.injEq, Outcome.returned.injEq] at h
          exact ⟨it, results, rows, rfl, hm, h.symm⟩

/-- C10 at the first page of two of the five rows. -/
theorem token_and_hint_witness :
    (("" : String) ≠ "" →
      (queryToken.configure (newRowIterator (pagedSource idSchema fiveRows exactBatch))
        "" 2).Token = "") ∧
    (("" : String) = "" →
      (queryToken.configure (newRowIterator (pagedSource idSchema fiveRows exactBatch))
        "" 2).Token = (newRowIterator (pagedSource idSchema fiveRows exactBatch)).Token) ∧
    (queryToken.configure (newRowIterator (pagedSource idSchema fiveRows exactBatch))
      "" 2).MaxSize = 2 ∧
    (queryToken.configure (newRowIterator (pagedSource idSchema fiveRows exactBatch))
      "" 2).pulls = 0 ∧
    (queryToken.configure (newRowIterator (pagedSource idSchema fiveRows exactBatch))
      "" 2).rows = [] ∧
    (∀ payload, queryToken 1 fiveRowClient (.ok ("SELECT id", "", 2)) =
        some (.returned payload) →
      ∃ it results rows,
        queryToken.loop 1 (2 : Int).toNat
          (queryToken.configure (newRowIterator (pagedSource idSchema fiveRows exactBatch))
            "" 2) none = some (.finished it results) ∧
        marshalSlice "main.Row" Row.MarshalJSON results = .ok rows ∧
        payload = .obj [("rows", rows), ("token", .str it.Token)]) :=
  token_and_hint 1 fiveRowClient "SELECT id" "" 2 (pagedSource idSchema fiveRows exactBatch) rfl

/-- The first page of two of the five rows, as the payload `queryToken` returns. -/
theorem first_page_payload :
    queryToken 1 fiveRowClient (.ok ("SELECT id", "", 2)) =
      some (.returned (.obj [("rows", .arr [.arr [.num 1], .arr [.num 2]]),
        ("token", .str "rr")])) := by
  rfl

/-! ### Pagination over a data source that serves batches -/

theorem RowIterator.nextLoop_buffered (fuel : Nat) (it : RowIterator) (h : it.rows ≠ []) :
    RowIterator.nextLoop fuel it = some (it, none) := by
  have hl : it.rows.length ≠ 0 := by simpa using h
  cases fuel <;> simp [RowIterator.nextLoop, hl]

theorem RowIterator.nextLoop_atEnd (fuel : Nat) (it : RowIterator) (hrows : it.rows = [])
    (hend : it.atEnd = true) :
    RowIterator.nextLoop fuel it = some ({ it with err := some .done }, some .done) := by
  cases fuel <;> simp [RowIterator.nextLoop, hrows, hend]

theorem RowIterator.Next_buffered (fuel : Nat) (it : RowIterator) (v : List Value)
    (rest : List (List Value)) (herr : it.err = none) (hrows : it.rows = v :: rest)
    (hv : v.length ≤ it.src.Schema.length) :
    it.Next fuel = some ({ it with rows := rest, pulls := it.pulls + 1 },
      .row (Row.paired it.src.Schema v)) := by
  obtain ⟨src, tok, ms, err, atEnd, rows, pulls⟩ := it
  simp only at herr hrows hv
  subst herr hrows
  simp [RowIterator.Next, RowIterator.next, RowIterator.nextLoop_buffered,
    RowIterator.loadFirst, Row.Load_eq _ _ _ hv]

theorem RowIterator.Next_atEnd (fuel : Nat) (it : RowIterator) (herr : it.err = none)
    (hrows : it.rows = []) (hend : it.atEnd = true) :
    it.Next fuel = some ({ it with err := some .done, pulls := it.pulls + 1 }, .err .done) := by
  obtain ⟨src, tok, ms, err, atEnd, rows, pulls⟩ := it
  simp only at herr hrows hend
  subst herr hrows hend
  simp [RowIterator.Next, RowIterator.next, RowIterator.nextLoop_atEnd]

theorem RowIterator.Next_fetch (fuel : Nat) (it : RowIterator) (v : List Value)
    (rest : List (List Value)) (token : String) (herr : it.err = none) (hrows : it.rows = [])
    (hend : it.atEnd = false) (hfetch : it.src.fetch it.MaxSize it.Token = .ok (v :: rest, token))
    (hv : v.length ≤ it.src.Schema.length) :
    it.Next (fuel + 1) =
      some ({ it with
              rows := rest, Token := token, atEnd := decide (token = ""),
              pulls := it.pulls + 1 },
        .row (Row.paired it.src.Schema v)) := by
  obtain ⟨src, tok, ms, err, atEnd, rows, pulls⟩ := it
  simp only at herr hrows hend hfetch hv
  subst herr hrows hend
  by_cases ht : token = ""
  · simp [RowIterator.Next, RowIterator.next, RowIterator.nextLoop, RowIterator.fill, hfetch,
      RowIterator.nextLoop_buffered, RowIterator.loadFirst, Row.Load_eq _ _ _ hv, ht]
  · simp [RowIterator.Next, RowIterator.next, RowIterator.nextLoop, RowIterator.fill, hfetch,
      RowIterator.nextLoop_buffered, RowIterator.loadFirst, Row.Load_eq _ _ _ hv, ht]

theorem RowIterator.Next_fetch_nothing (fuel : Nat) (it : RowIterator) (herr : it.err = none)
    (hrows : it.rows = []) (hend : it.atEnd = false)
    (hfetch : it.src.fetch it.MaxSize it.Token = .ok ([], "")) :
    it.Next (fuel + 1) =
      some ({ it with Token := "", atEnd := true, err := some .done, pulls := it.pulls + 1 },
        .err .done) := by
  obtain ⟨src, tok, ms, err, atEnd, rows, pulls⟩ := it
  simp only at herr hrows hend hfetch
  subst herr hrows hend
  simp [RowIterator.Next, RowIterator.next, RowIterator.nextLoop, RowIterator.fill, hfetch,
    RowIterator.nextLoop_atEnd]

theorem queryToken.loop_buffer (fuel : Nat) (schema : Schema) :
    ∀ (m : Nat) (buf : List (List Value)) (it : RowIterator) (results : Slice Row),
      it.src.Schema = schema → it.err = none → it.rows = buf →
      (∀ v ∈ buf, v.length ≤ schema.length) → (it.atEnd = true ∨ m ≤ buf.length) →
      ∃ it2, queryToken.loop fuel m it results =
          some (.finished it2 (Slice.appendAll results ((buf.take m).map (Row.paired schema)))) ∧
        it2.Token = it.Token := by
  intro m
  induction m with
  | zero =>
    intro buf it results _ _ _ _ _
    exact ⟨it, by simp [queryToken.loop, Slice.appendAll], rfl⟩
  | succ m ih =>
    intro buf it results hs herr hrows hwf hm
    cases buf with
    | nil =>
      have hend : it.atEnd = true := by
        rcases hm with h | h
        · exact h
        · simp at h
      refine ⟨{ it with err := some .done, pulls := it.pulls + 1 }, ?_, rfl⟩
      simp only [queryToken.loop, RowIterator.Next_atEnd fuel it herr hrows hend]
      simp [Slice.appendAll]
    | cons v rest =>
      have hv : v.length ≤ it.src.Schema.length := by
        rw [hs]
        exact hwf v (by simp)
      obtain ⟨it2, h2, htok⟩ := ih rest { it with rows := rest, pulls := it.pulls + 1 }
        (Slice.append results (Row.paired schema v)) hs herr rfl
        (fun w hw => hwf w (by simp [hw]))
        (by
          rcases hm with h | h
          · exact Or.inl h
          · exact Or.inr (by simpa using h))
      refine ⟨it2, ?_, htok⟩
      simp only [queryToken.loop, RowIterator.Next_buffered fuel it v rest herr hrows hv, hs, h2,
        List.take_succ_cons, List.map_cons, Slice.appendAll_cons]

theorem offsetToken_length (off : Nat) : (offsetToken off).length = off := by
  simp [offsetToken, String.length]

theorem offsetToken_eq_empty (off : Nat) : offsetToken off = "" ↔ off = 0 := by
  constructor
  · intro h
    have := offsetToken_length off
    rw [h] at this
    simpa using this.symm
  · rintro rfl
    rfl

theorem resultSet_eq (schema : Schema) (rows : List (List Value))
    (hwf : ∀ v ∈ rows, v.length ≤ schema.length) :
    resultSet schema rows = rows.map (Row.paired schema) := by
  induction rows with
  | nil => rfl
  | cons v rows ih =>
    have hv := hwf v (by simp)
    have := ih (fun w hw => hwf w (by simp [hw]))
    simp only [resultSet] at this
    simp [resultSet, Row.Load_eq _ _ _ hv, this]

theorem pagedSource_Schema (schema : Schema) (rows : List (List Value))
    (batch : Nat → Int → Nat) : (pagedSource schema rows batch).Schema = schema := rfl

theorem queryToken.page_exact (fuel : Nat) (client : Client) (sql : String) (schema : Schema)
    (rows : List (List Value)) (batch : Nat → Int → Nat) (pageSize : Int) (off : Nat)
    (hclient : client sql = .ok (pagedSource schema rows batch)) (hps : 0 < pageSize)
    (hbatch : ∀ k, batch k pageSize = pageSize.toNat)
    (hwf : ∀ v ∈ rows, v.length ≤ schema.length) :
    ∃ results, queryToken.page (fuel + 1) client (.ok (sql, offsetToken off, pageSize)) =
        some (.returned ⟨results,
          if off + pageSize.toNat < rows.length then offsetToken (off + pageSize.toNat)
          else ""⟩) ∧
      Slice.elems results = ((rows.drop off).take pageSize.toNat).map (Row.paired schema) := by
  obtain ⟨p, hp⟩ : ∃ p, pageSize.toNat = p + 1 := ⟨pageSize.toNat - 1, by omega⟩
  have hit0 : queryToken.configure (newRowIterator (pagedSource schema rows batch))
      (offsetToken off) pageSize =
      { src := pagedSource schema rows batch, Token := offsetToken off, MaxSize := pageSize,
        err := none, atEnd := false, rows := [], pulls := 0 } := by
    by_cases h : offsetToken off = ""
    · simp [queryToken.configure, newRowIterator, h]
    · simp [queryToken.configure, newRowIterator, h]
  have hfetch : (pagedSource schema rows batch).fetch pageSize (offsetToken off) =
      .ok ((rows.drop off).take (p + 1),
        if off + (p + 1) < rows.length then offsetToken (off + (p + 1)) else "") := by
    simp [pagedSource, offsetToken_length, hbatch, hp]
  simp only [queryToken.page, hclient, hit0, hp]
  cases hB : (rows.drop off).take (p + 1) with
  | nil =>
    have hdrop : rows.drop off = [] := by
      cases hd : rows.drop off with
      | nil => rfl
      | cons a l => simp [hd] at hB
    have hlen : rows.length ≤ off := by simpa using hdrop
    have hnot : ¬ off + (p + 1) < rows.length := by omega
    rw [hB, if_neg hnot] at hfetch
    refine ⟨none, ?_, by simp [Slice.elems]⟩
    simp only [queryToken.loop]
    rw [RowIterator.Next_fetch_nothing fuel _ rfl rfl rfl hfetch]
    simp [hnot]
  | cons v rest =>
    rw [hB] at hfetch
    have hsub : ∀ w ∈ v :: rest, w ∈ rows := by
      intro w hw
      rw [← hB] at hw
      exact List.mem_of_mem_drop (List.mem_of_mem_take hw)
    have hv : v.length ≤ schema.length := hwf v (hsub v (by simp))
    have hBlen : (v :: rest).length = min (p + 1) (rows.length - off) := by
      rw [← hB]
      simp
    simp only [List.length_cons] at hBlen
    obtain ⟨it2, h2, htok⟩ := queryToken.loop_buffer (fuel + 1) schema p rest
      { src := pagedSource schema rows batch,
        Token := if off + (p + 1) < rows.length then offsetToken (off + (p + 1)) else "",
        MaxSize := pageSize, err := none,
        atEnd := decide ((if off + (p + 1) < rows.length then offsetToken (off + (p + 1))
          else "") = ""),
        rows := rest, pulls := 0 + 1 }
      (Slice.append none (Row.paired schema v)) rfl rfl rfl
      (fun w hw => hwf w (hsub w (by simp [hw])))
      (by
        by_cases hlt : off + (p + 1) < rows.length
        · right
          omega
        · left
          simp [hlt])
    refine ⟨Slice.appendAll (Slice.append none (Row.paired schema v))
      ((rest.take p).map (Row.paired schema)), ?_, ?_⟩
    · simp only [queryToken.loop]
      rw [RowIterator.Next_fetch fuel _ v rest _ rfl rfl rfl hfetch hv]
      simp only [pagedSource_Schema, Nat.zero_add] at h2 ⊢
      rw [h2]
      simp only [htok]
    · rw [Slice.elems_appendAll]
      have : rest.take p = rest := List.take_of_length_le (by omega)
      simp [Slice.append, Slice.elems, this]

theorem paginate_exact_from (fuel : Nat) (client : Client) (sql : String) (schema : Schema)
    (rows : List (List Value)) (batch : Nat → Int → Nat) (pageSize : Int)
    (hclient : client sql = .ok (pagedSource schema rows batch)) (hps : 0 < pageSize)
    (hbatch : ∀ k, batch k pageSize = pageSize.toNat)
    (hwf : ∀ v ∈ rows, v.length ≤ schema.length) :
    ∀ (calls off : Nat), rows.length - off < calls →
      ∃ resps, paginate (fun token => queryToken.page (fuel + 1) client (.ok (sql, token, pageSize)))
          calls (offsetToken off) = some resps ∧
        (resps.map fun resp => Slice.elems resp.Rows).flatten =
          (rows.drop off).map (Row.paired schema) := by
  intro calls
  induction calls with
  | zero => intro off h; omega
  | succ calls ih =>
    intro off hcalls
    obtain ⟨results, hpage, helems⟩ := queryToken.page_exact fuel client sql schema rows batch
      pageSize off hclient hps hbatch hwf
    have hpos : 0 < pageSize.toNat := by omega
    by_cases hlt : off + pageSize.toNat < rows.length
    · rw [if_pos hlt] at hpage
      have hne : offsetToken (off + pageSize.toNat) ≠ "" := by
        rw [Ne, offsetToken_eq_empty]
        omega
      obtain ⟨resps, hrest, hjoin⟩ := ih (off + pageSize.toNat) (by omega)
      refine ⟨⟨results, offsetToken (off + pageSize.toNat)⟩ :: resps, ?_, ?_⟩
      · simp only [paginate, hpage, hne, if_false, hrest]
      · simp only [List.map_cons, List.flatten_cons, hjoin, helems]
        rw [← List.map_append, ← List.drop_drop, List.take_append_drop]
    · rw [if_neg hlt] at hpage
      refine ⟨[⟨results, ""⟩], ?_, ?_⟩
      · simp only [paginate, hpage, if_true]
      · simp only [List.map_cons, List.map_nil, List.flatten_cons, List.flatten_nil, List.append_nil,
          helems]
        rw [List.take_of_length_le (by simp; omega)]

/-- Where the batches do line up. Over a data source whose batches have
exactly the size of the page-size hint (the last one what is left), for every
result set and every `pageSize > 0`: calling `queryToken.page` with the empty
token and then with the token of each response until a response has the empty
token ends within `len rows + 1` calls, and the pages of the responses, one
after the other and before they are encoded, are the whole result set. -/
theorem pagination_covers (fuel calls : Nat) (client : Client) (sql : String) (schema : Schema)
    (rows : List (List Value)) (batch : Nat → Int → Nat) (pageSize : Int)
    (hclient : client sql = .ok (pagedSource schema rows batch)) (hps : 0 < pageSize)
    (hbatch : ∀ off, batch off pageSize = pageSize.toNat)
    (hwf : ∀ v ∈ rows, v.length = schema.length) (hcalls : rows.length < calls) :
    ∃ resps, paginate (fun token => queryToken.page (fuel + 1) client (.ok (sql, token, pageSize)))
        calls "" = some resps ∧
      (resps.map fun resp => Slice.elems resp.Rows).flatten = resultSet schema rows := by
  have hwf2 : ∀ v ∈ rows, v.length ≤ schema.length := fun v hv => le_of_eq (hwf v hv)
  obtain ⟨resps, h1, h2⟩ := paginate_exact_from fuel client sql schema rows batch pageSize
    hclient hps hbatch hwf2 calls 0 (by simpa using hcalls)
  refine ⟨resps, h1, ?_⟩
  rw [h2, resultSet_eq schema rows hwf2]
  simp

/-- The five rows in pages of 2, over batches of exactly the hint. -/
theorem pagination_covers_witness :
    ∃ resps, paginate (fun token => queryToken.page (0 + 1) fiveRowClient
        (.ok ("SELECT id", token, 2))) 6 "" = some resps ∧
      (resps.map fun resp => Slice.elems resp.Rows).flatten = resultSet idSchema fiveRows :=
  pagination_covers 0 6 fiveRowClient "SELECT id" idSchema fiveRows exactBatch 2 rfl (by decide)
    (fun _ => rfl) (by decide) (by decide)

/-- The example of the specification: five rows in pages of 2 come as 2, 2 and
1 rows, with a token after the first and the second page and none after the
third. -/
theorem five_rows_in_pages_of_two :
    paginate (fun token => queryToken.page 1 fiveRowClient (.ok ("SELECT id", token, 2))) 3 "" =
      some [⟨some [Row.paired idSchema [.int64 1], Row.paired idSchema [.int64 2]], "rr"⟩,
        ⟨some [Row.paired idSchema [.int64 3], Row.paired idSchema [.int64 4]], "rrrr"⟩,
        ⟨some [Row.paired idSchema [.int64 5]], ""⟩] := by
  rfl

/-- C5, the code at batches that do not line up with the pages: three rows
served in batches of one and then two rows, all within the hint of 2. The first
call buffers the second batch to take its second row, so the token it returns
is already the one after that batch, here the empty one: the caller stops after
one page of two rows and never sees the third row, which a call resumed at the
offset 2 would return. -/
theorem ragged_batches_lose_a_row :
    (∀ off, 1 ≤ raggedBatch off 2 ∧ raggedBatch off 2 ≤ 2) ∧
    queryToken 1 raggedClient (.ok ("SELECT id", "", 2)) =
      some (.returned (.obj [("rows", .arr [.arr [.num 1], .arr [.num 2]]),
        ("token", .str "")])) ∧
    queryToken 1 raggedClient (.ok ("SELECT id", "rr", 2)) =
      some (.returned (.obj [("rows", .arr [.arr [.num 3]]), ("token", .str "")])) ∧
    paginate (fun token => queryToken.page 1 raggedClient (.ok ("SELECT id", token, 2))) 4 "" =
      some [⟨some [Row.paired idSchema [.int64 1], Row.paired idSchema [.int64 2]], ""⟩] ∧
    resultSet idSchema (fiveRows.take 3) =
      [Row.paired idSchema [.int64 1], Row.paired idSchema [.int64 2],
        Row.paired idSchema [.int64 3]] ∧
    ([[Row.paired idSchema [.int64 1], Row.paired idSchema [.int64 2]]] :
        List (List Row)).flatten ≠ resultSet idSchema (fiveRows.take 3) := by
  have hset : resultSet idSchema (fiveRows.take 3) =
      [Row.paired idSchema [.int64 1], Row.paired idSchema [.int64 2],
        Row.paired idSchema [.int64 3]] := rfl
  have hpage : queryToken.page 1 raggedClient (.ok ("SELECT id", "", 2)) =
      some (.returned ⟨some [Row.paired idSchema [.int64 1], Row.paired idSchema [.int64 2]],
        ""⟩) := rfl
  refine ⟨?_, ?_, rfl, rfl, hset, ?_⟩
  · intro off
    unfold raggedBatch
    split_ifs <;> omega
  · simp only [queryToken, hpage]
    rfl
  · rw [hset]
    simp

end BigQueryPod
